import Mathlib

/-!
# watchsumo-checker: the probe engine and its error classifier

A shallow embedding of `checker/checker.go`, `checker/error.go`,
`checker/certificate.go` and the `types` package.

* Go values are Lean values; a pointer that may be nil is an `Option`.
* `Option` as the result of a function means that the Go function can stop with
  a run-time panic (`none`) instead of returning.
* The clock, the HTTP client and the SHA-256 digest are not part of the
  repository: they are the fields of an environment `Env` that every
  definition takes as a parameter.
* The process state `Proc` holds what a probe touches besides its Checker: the
  clock readings taken, the counters of package metrics, the log, and a history
  of the probe's steps that the code never reads.
-/

namespace WatchSumo

/-! ## package time (the part the checker uses) -/

/-- A `time.Duration`: a signed 64-bit count of nanoseconds. -/
abbrev Duration := Int

/-- The constant `time.Millisecond`. -/
def Millisecond : Duration := 1000000

/-- The constant `time.Second`. -/
def Second : Duration := 1000 * Millisecond

/-- The smallest `time.Duration`. -/
def minDuration : Duration := -(2 ^ 63)

/-- The largest `time.Duration`. -/
def maxDuration : Duration := 2 ^ 63 - 1

/-- Saturation of an integer to the range of `time.Duration`. -/
def saturate (d : Int) : Duration :=
  if d < minDuration then minDuration
  else if maxDuration < d then maxDuration
  else d

/-- The method `Duration.Truncate`: rounding toward zero to a multiple of `m`;
a non-positive `m` leaves the duration unchanged. -/
def Duration.Truncate (d m : Duration) : Duration :=
  if m ≤ 0 then d else d - d.tmod m

/-- The method `Duration.Milliseconds`: integer division by one million, toward zero. -/
def Duration.Milliseconds (d : Duration) : Int :=
  d.tdiv 1000000

/-- A `time.Time`. `wall` counts nanoseconds since January 1, year 1 UTC, so the
zero value has `wall = 0`; `mono` is the monotonic clock reading that values
returned by `time.Now` carry and that the zero value lacks. -/
structure Time where
  wall : Int
  mono : Option Int
  deriving DecidableEq

/-- The zero value of `time.Time`, which a variable holds until it is assigned. -/
def Time.zero : Time := ⟨0, none⟩

/-- The method `Time.IsZero`. -/
def Time.IsZero (t : Time) : Bool :=
  t.wall == 0

/-- The method `Time.Sub`: the monotonic difference when both values carry a
monotonic reading, the wall-clock difference otherwise, saturated to the range
of `Duration`. -/
def Time.Sub (t u : Time) : Duration :=
  match t.mono, u.mono with
  | some a, some b => saturate (a - b)
  | _, _ => saturate (t.wall - u.wall)

/-! ## package types -/

/-- The fields of a `url.URL` that identify the target. -/
structure URL where
  Scheme : String
  Host : String
  Path : String
  RawQuery : String
  deriving DecidableEq

/-- CheckStatus is the status of a check (a Go string type). -/
abbrev CheckStatus := String

/-- StatusUp site is up. -/
def StatusUp : CheckStatus := "up"

/-- StatusDown site is down. -/
def StatusDown : CheckStatus := "down"

/-- StatusUnknown site status is unknown. -/
def StatusUnknown : CheckStatus := "unknown"

/-- CheckError is the error while performing the check (a Go string type). -/
abbrev CheckError := String

def UnknownError : CheckError := "unknown_error"
def NxDomain : CheckError := "nxdomain"
def DNSError : CheckError := "dns_error"
def Timeout : CheckError := "timeout"
def MaxRedirects : CheckError := "max_redirects"
def HostUnreachable : CheckError := "ehostunreach"
def ConnectionRefused : CheckError := "econnrefused"
def Closed : CheckError := "closed"
def CertExpired : CheckError := "cert-expired"
def CertSelfSigned : CheckError := "cert-self-signed"
def CertUntrustedAuthority : CheckError := "cert-untrusted-authority"
def CertWrongHost : CheckError := "cert-wrong-host"
def CertIncompleteChain : CheckError := "cert-incomplete-chain"
def TLSAlert : CheckError := "tls_alert"
def UnsupportedSchema : CheckError := "unsupported_schema"

/-- The method `CheckError.ToString`. -/
def CheckError.ToString (err : CheckError) : String := err

/-- CheckOptions check options. -/
structure CheckOptions where
  GetFallback : Bool
  IgnoreTLSErrors : Bool
  FollowRedirects : Bool
  deriving DecidableEq

/-- CheckRequest is a check request. -/
structure CheckRequest where
  Ref : String
  Method : String
  URL : URL
  Timeout : Duration
  Options : CheckOptions
  deriving DecidableEq

/-- RequestTiming contains timings of each part of the request; every field is
a pointer in Go. -/
structure RequestTiming where
  DNS : Option Duration
  Connecting : Option Duration
  TLS : Option Duration
  Sending : Option Duration
  Waiting : Option Duration
  Receiving : Option Duration
  deriving DecidableEq

/-- CertInfo contains information about the TLS certificate used. -/
structure CertInfo where
  SerialString : String
  Serial : List Nat
  Algorithm : Int
  ValidFrom : Time
  ValidTo : Time
  Subject : String
  Issuer : String
  FingerprintSHA256 : List Nat
  deriving DecidableEq

/-- CheckResult is the result of a check. `Time`, `Certificate`, `Timing` and
`Timestamp` are pointers in Go. -/
structure CheckResult where
  Status : CheckStatus
  Method : String
  URL : URL
  StatusCode : Int
  Proto : String
  StatusText : String
  Headers : List (String × List String)
  Body : String
  Time : Option Duration
  Certificate : Option CertInfo
  Timing : Option RequestTiming
  Error : String
  Timestamp : Option WatchSumo.Time
  deriving DecidableEq

/-- The method `CheckResult.Success`. -/
def CheckResult.Success (r : CheckResult) : Bool :=
  r.Status == StatusUp

/-- The composite literal `&types.CheckResult{URL: url, Method: method}`: every
other field has its zero value. -/
def CheckResult.fresh (url : WatchSumo.URL) (method : String) : CheckResult where
  Status := ""
  Method := method
  URL := url
  StatusCode := 0
  Proto := ""
  StatusText := ""
  Headers := []
  Body := ""
  Time := none
  Certificate := none
  Timing := none
  Error := ""
  Timestamp := none

/-! ## package crypto/x509 (the fields the checker reads) -/

/-- A `pkix.Name`. -/
structure Name where
  CommonName : String
  Organization : List String
  deriving DecidableEq

/-- An `x509.Certificate`. Bytes are naturals below 256. A key identifier is
`none` for a nil slice and `some` for a slice that is not nil (possibly empty),
which is the distinction `reflect.DeepEqual` makes. `SerialNumber` is the
`big.Int` the parser stored. -/
structure Certificate where
  Raw : List Nat
  SerialNumber : Int
  SignatureAlgorithm : Int
  NotBefore : Time
  NotAfter : Time
  Subject : Name
  Issuer : Name
  DNSNames : List String
  IsCA : Bool
  SubjectKeyId : Option (List Nat)
  AuthorityKeyId : Option (List Nat)
  deriving DecidableEq

/-- The method `big.Int.Bytes`: the absolute value as a big-endian byte slice,
empty for zero. -/
def bigIntBytes (n : Int) : List Nat :=
  (Nat.digits 256 n.natAbs).reverse

/-! ## checker/certificate.go -/

/-- The lower-case hexadecimal digit of a value below 16 (`encoding/hex`). -/
def hexDigit (n : Nat) : Char :=
  "0123456789abcdef".toList.getD n '0'

/-- The function `hex.Encode` as a value: two lower-case digits per byte. -/
def hexEncode : List Nat → List Char
  | [] => []
  | b :: bs => hexDigit (b / 16) :: hexDigit (b % 16) :: hexEncode bs

/-- The loop of extractSerial. `arr` is the array behind both `buf` and `x`:
`buf` is its first `len` cells and `x` starts at cell `off`. Each round appends
`x[i]`, `x[i+1]` and a colon to `buf`, writing cells `len`, `len+1`, `len+2`. -/
def serialLoop (off xlen : Nat) : Nat → Nat → List Char → Nat → List Char × Nat
  | 0, _, arr, len => (arr, len)
  | fuel + 1, i, arr, len =>
    if i < xlen then
      let a := arr.getD (off + i) '0'
      let b := arr.getD (off + i + 1) '0'
      serialLoop off xlen fuel (i + 2)
        (((arr.set len a).set (len + 1) b).set (len + 2) ':') (len + 3)
    else (arr, len)

/-- extractSerial: the serial as upper-case colon-separated hex pairs. The slice
expression `buf[:len(buf)-1]` panics when `buf` is empty. -/
def extractSerial (cert : Certificate) : Option String :=
  let b := bigIntBytes cert.SerialNumber
  -- buf := make([]byte, 0, 3*len(b)); x := buf[1*len(b) : 3*len(b)]; hex.Encode(x, b)
  let arr := List.replicate b.length '0' ++ hexEncode b
  let (arr, len) := serialLoop b.length (2 * b.length) (b.length + 1) 0 arr 0
  if len = 0 then none
  else some (String.mk ((arr.take (len - 1)).map Char.toUpper))

/-- extractSubject: the Subject Alt Names when present, else the Common Name. -/
def extractSubject (cert : Certificate) : String :=
  if cert.DNSNames.length > 5 then
    " ".intercalate (cert.DNSNames.take 5) ++ " ..."
  else if cert.DNSNames.length > 0 then
    " ".intercalate cert.DNSNames
  else
    cert.Subject.CommonName

/-- extractIssuer: the Common Name, with the first Organization in parentheses. -/
def extractIssuer (cert : Certificate) : String :=
  let cn := cert.Issuer.CommonName
  match cert.Issuer.Organization with
  | org :: _ => cn ++ " (" ++ org ++ ")"
  | [] => cn

/-- extractFingerprintSHA256: the digest of the raw certificate. -/
def extractFingerprintSHA256 (sha256 : List Nat → List Nat) (cert : Certificate) : List Nat :=
  sha256 cert.Raw

/-- certInfoFromCert: `some none` is the nil result for a nil certificate. -/
def certInfoFromCert (sha256 : List Nat → List Nat) :
    Option Certificate → Option (Option CertInfo)
  | none => some none
  | some cert =>
    match extractSerial cert with
    | none => none
    | some serial =>
      some (some
        { Subject := extractSubject cert
          Issuer := extractIssuer cert
          SerialString := serial
          Serial := bigIntBytes cert.SerialNumber
          ValidFrom := cert.NotBefore
          ValidTo := cert.NotAfter
          Algorithm := cert.SignatureAlgorithm
          FingerprintSHA256 := extractFingerprintSHA256 sha256 cert })

/-- A `tls.ConnectionState`, of which the checker reads the peer certificates. -/
structure ConnectionState where
  PeerCertificates : List Certificate
  deriving DecidableEq

/-- certInfoFromTLSConnectionState: the index expression `PeerCertificates[0]`
panics on an empty slice. -/
def certInfoFromTLSConnectionState (sha256 : List Nat → List Nat)
    (tls : ConnectionState) : Option (Option CertInfo) :=
  match tls.PeerCertificates with
  | [] => none
  | cert :: _ => certInfoFromCert sha256 (some cert)

/-! ## error values -/

/-- The constant `x509.Expired` of type `x509.InvalidReason`. -/
def Expired : Nat := 1

/-- An error value, by dynamic type. The typed constructors carry the fields the
classifier reads; `value` stands for a value of any other dynamic type, given by
the string `reflect.TypeOf(err).String()` returns and the text its `Error`
method returns (`errors.New` values other than `io.EOF`, `syscall.Errno`,
`tls.alert`, ...). The x509 errors always carry the certificate that failed. -/
inductive GoError where
  /-- A `*url.Error`, which wraps every error that `http.Client.Do` returns. -/
  | urlError (Op : String) (URL : String) (Err : GoError)
  /-- An `x509.CertificateInvalidError`. -/
  | certificateInvalidError (Cert : Certificate) (Reason : Nat) (Detail : String)
  /-- An `x509.UnknownAuthorityError`. -/
  | unknownAuthorityError (Cert : Certificate)
  /-- An `x509.HostnameError`. -/
  | hostnameError (Certificate : Certificate) (Host : String)
  /-- A `*net.OpError`. -/
  | opError (Op : String) (Net : String) (Err : GoError)
  /-- A `*net.DNSError`. -/
  | dnsError (Err : String) (Name : String) (IsNotFound : Bool) (IsTimeout : Bool)
  /-- An `*os.SyscallError`. -/
  | syscallError (Syscall : String) (Err : GoError)
  /-- The value `io.EOF`. -/
  | eof
  /-- A `*http.httpError`, with its two unexported fields. -/
  | httpError (err : String) (timeout : Bool)
  /-- A value of any other dynamic type. -/
  | value (typeName : String) (text : String)
  deriving DecidableEq

/-- The string `reflect.TypeOf(err).String()`. -/
def GoError.typeName : GoError → String
  | .urlError _ _ _ => "*url.Error"
  | .certificateInvalidError _ _ _ => "x509.CertificateInvalidError"
  | .unknownAuthorityError _ => "x509.UnknownAuthorityError"
  | .hostnameError _ _ => "x509.HostnameError"
  | .opError _ _ _ => "*net.OpError"
  | .dnsError _ _ _ _ => "*net.DNSError"
  | .syscallError _ _ => "*os.SyscallError"
  | .eof => "*errors.errorString"
  | .httpError _ _ => "*http.httpError"
  | .value typeName _ => typeName

/-- The text of the method `Error`. Values of the standard library render in
the shape of the library's format, without addresses and name lists. -/
def GoError.Error : GoError → String
  | .urlError op url err => op ++ " \"" ++ url ++ "\": " ++ err.Error
  | .certificateInvalidError _ reason detail =>
    if reason = Expired then "x509: certificate has expired or is not yet valid: " ++ detail
    else "x509: certificate is not valid: " ++ detail
  | .unknownAuthorityError _ => "x509: certificate signed by unknown authority"
  | .hostnameError _ host => "x509: certificate is not valid for " ++ host
  | .opError op net err => op ++ " " ++ net ++ ": " ++ err.Error
  | .dnsError err name _ _ => "lookup " ++ name ++ ": " ++ err
  | .syscallError call err => call ++ ": " ++ err.Error
  | .eof => "EOF"
  | .httpError err _ => err
  | .value _ text => text

/-- The method `Timeout` of an error, false for a value that has none. A
`*url.Error`, a `*net.OpError` and an `*os.SyscallError` ask the error they
wrap (a `*net.OpError` looks into a wrapped `*os.SyscallError` itself), a
`*net.DNSError` and a `*http.httpError` answer with their flag. Of the types
that `value` stands for, `http.tlsHandshakeTimeoutError` always answers true
and a `syscall.Errno` answers true for ETIMEDOUT and EAGAIN; the others the
model meets (`*errors.errorString`, `tls.alert`, `*tls.permanentError`) have no
such method. -/
def GoError.Timeout : GoError → Bool
  | .urlError _ _ err => err.Timeout
  | .opError _ _ (.syscallError _ err) => err.Timeout
  | .opError _ _ err => err.Timeout
  | .syscallError _ err => err.Timeout
  | .dnsError _ _ _ isTimeout => isTimeout
  | .httpError _ timeout => timeout
  | .value typeName text =>
    typeName = "http.tlsHandshakeTimeoutError" ∨
      (typeName = "syscall.Errno" ∧
        (text = "connection timed out" ∨ text = "resource temporarily unavailable"))
  | _ => false

/-- The package variable errMaxRedirects, made with `errors.New`. -/
def errMaxRedirects : GoError := .value "*errors.errorString" "Redirect limited exceeded"

/-- The variable `http.ErrUseLastResponse`. -/
def ErrUseLastResponse : GoError := .value "*errors.errorString" "net/http: use last response"

/-- The error value `syscall.ECONNRESET` (its text on Linux). -/
def ECONNRESET : GoError := .value "syscall.Errno" "connection reset by peer"

/-- The error value `syscall.ECONNREFUSED` (its text on Linux). -/
def ECONNREFUSED : GoError := .value "syscall.Errno" "connection refused"

/-- The error value `syscall.EHOSTUNREACH` (its text on Linux). -/
def EHOSTUNREACH : GoError := .value "syscall.Errno" "no route to host"

/-- The error value `syscall.ETIMEDOUT` (its text on Linux). -/
def ETIMEDOUT : GoError := .value "syscall.Errno" "connection timed out"

/-- The value `http.tlsHandshakeTimeoutError{}`, which the transport returns
when the TLS handshake has not finished within `TLSHandshakeTimeout`: ten
seconds in `http.DefaultTransport`, which Perform clones. -/
def tlsHandshakeTimeout : GoError :=
  .value "http.tlsHandshakeTimeoutError" "net/http: TLS handshake timeout"

/-! ## logging (logrus) -/

/-- The levels the classifier logs at. -/
inductive LogLevel where
  | Info
  | Warn
  deriving DecidableEq

/-- The value of a field of a log entry. -/
inductive LogValue where
  | str (s : String)
  | err (e : GoError)
  | num (n : Nat)
  deriving DecidableEq

/-- One entry handed to the logger: its level, its message and its fields. -/
structure LogEntry where
  level : LogLevel
  msg : String
  fields : List (String × LogValue)
  deriving DecidableEq

/-! ## checker/error.go -/

/-- Checker engine. -/
structure Checker where
  Success : Bool
  Req : CheckRequest
  Res : CheckResult
  start : Time
  deriving DecidableEq

/-- UnwrappedError unwraps an error. `Cert` is a pointer in Go. -/
structure UnwrappedError where
  Err : CheckError
  Cert : Option Certificate
  deriving DecidableEq

/-- ToString returns the string format of the error. -/
def UnwrappedError.ToString (e : UnwrappedError) : String :=
  CheckError.ToString e.Err

/-- unwrapHTTPError: the classification of a `*http.httpError` from its two fields. -/
def unwrapHTTPError (_c : Checker) (_message : String) (timeout : Bool) :
    UnwrappedError × List LogEntry :=
  if timeout then
    (⟨Timeout, none⟩, [])
  else
    (⟨UnknownError, none⟩, [])

/-- unhandledError: logs the error with its type and classifies it as unknown. -/
def unhandledError (c : Checker) (err : GoError) (parent : String) :
    UnwrappedError × List LogEntry :=
  (⟨UnknownError, none⟩,
    [⟨.Warn, "Unhandled error",
      [("Ref", .str c.Req.Ref), ("Err", .err err), ("Type", .str err.typeName),
       ("Parent", .str parent)]⟩])

/-- unwrapNetOpError, applied to the field `Err` of the `*net.OpError`. -/
def unwrapNetOpError (c : Checker) (err : GoError) : UnwrappedError × List LogEntry :=
  match err with
  | .dnsError _ _ isNotFound _ =>
    if isNotFound then (⟨NxDomain, none⟩, [])
    else (⟨DNSError, none⟩, [])
  | .syscallError _ inner =>
    if inner.Error = ECONNRESET.Error then (⟨Closed, none⟩, [])
    else if inner.Error = ECONNREFUSED.Error then (⟨ConnectionRefused, none⟩, [])
    else if inner.Error = EHOSTUNREACH.Error then (⟨HostUnreachable, none⟩, [])
    else unhandledError c err "os.SyscallError"
  | _ =>
    -- Use reflection for non exported errors
    if err.typeName = "tls.alert" then (⟨TLSAlert, none⟩, [])
    else unhandledError c err "net.OpError"

/-- unwrapURLError, applied to the field `Err` of the `*url.Error`. -/
def unwrapURLError (c : Checker) (err : GoError) : UnwrappedError × List LogEntry :=
  match err with
  | .certificateInvalidError cert reason _ =>
    if reason = Expired then (⟨CertExpired, some cert⟩, [])
    else
      (⟨TLSAlert, some cert⟩,
        [⟨.Info, "Unhandled error x509.CertificateInvalidError", [("reason", .num reason)]⟩])
  | .unknownAuthorityError cert =>
    if cert.IsCA then (⟨CertUntrustedAuthority, some cert⟩, [])
    -- Self-signed certificates usually have the SubjectKeyId equal to
    -- AuthorityKeyId, this isn't always true though
    else if cert.SubjectKeyId = cert.AuthorityKeyId then (⟨CertSelfSigned, some cert⟩, [])
    else (⟨CertIncompleteChain, some cert⟩, [])
  | .hostnameError cert _ => (⟨CertWrongHost, some cert⟩, [])
  | .opError _ _ inner => unwrapNetOpError c inner
  | _ =>
    if err = .eof then (⟨Closed, none⟩, [])
    else if err.Error = errMaxRedirects.Error then (⟨MaxRedirects, none⟩, [])
    else
      -- Use reflection for non exported errors
      match err with
      | .httpError message timeout => unwrapHTTPError c message timeout
      | _ =>
        if err.typeName = "*tls.permamentError" ∨ err.typeName = "*tls.permanentError" then
          (⟨TLSAlert, none⟩, [])
        else unhandledError c err "url.Error"

/-- unwrapError: the classifier. It returns the classification together with
the log entries the call emits. -/
def unwrapError (c : Checker) (err : GoError) : UnwrappedError × List LogEntry :=
  match err with
  | .urlError _ _ inner => unwrapURLError c inner
  | .httpError message timeout =>
    -- Use reflection for non exported errors
    unwrapHTTPError c message timeout
  | _ => unhandledError c err "error"

/-! ## the world outside the checker -/

/-- An `*http.Request` as the checker builds it. -/
structure Request where
  Method : String
  URL : URL
  Header : List (String × String)
  deriving DecidableEq

/-- The instants the `httptrace.ClientTrace` hooks stored in `t0` .. `t8`; a
variable whose hook never fired still holds the zero `time.Time`. -/
structure Trace where
  t0 : Time
  t1 : Time
  t2 : Time
  t3 : Time
  t4 : Time
  t5 : Time
  t6 : Time
  t7 : Time
  t8 : Time
  deriving DecidableEq

/-- An `*http.Response`. `RequestURL` is `resp.Request.URL`; `Body` is what
`ioutil.ReadAll(resp.Body)` returns, the bytes read or an error. -/
structure Response where
  Status : String
  StatusCode : Int
  Proto : String
  Header : List (String × List String)
  RequestURL : URL
  TLS : Option ConnectionState
  Body : Except GoError String

/-- The `http.Client` Perform builds: whether its transport skips certificate
verification, its redirect policy and its timeout. -/
structure Client where
  InsecureSkipVerify : Bool
  CheckRedirect : Request → List Request → Option GoError
  Timeout : Duration

/-- The method `Client.deadline` of net/http, as the time the client allows for
a call of `Do` with its redirects and the reading of the body: the timeout
when it is positive; with a timeout of zero or less the method returns the
zero `time.Time` and no limit applies ("a Timeout of zero means no timeout"). -/
def Client.deadline (client : Client) : Option Duration :=
  if client.Timeout > 0 then some client.Timeout else none

/-- The environment of a probe. `Now n` is the instant returned by the call of
`time.Now` that the checker makes after `n` earlier ones (the hooks read the
clock on their own, see `Trace`). `NewRequest` is the error `http.NewRequest`
returns, if any. `Do n client req` is what `client.Do(req)` returns, and the
trace it leaves, when issued after `n` clock readings. `sha256` is
`sha256.Sum256`. -/
structure Env where
  Now : Nat → Time
  NewRequest : String → URL → Option GoError
  Do : Nat → Client → Request → Except GoError (Response × Trace)
  sha256 : List Nat → List Nat

/-- An entry of the history of a probe. -/
inductive Event where
  /-- Perform was entered with this request method. -/
  | perform (method : String)
  /-- A request was handed to `client.Do` with this client timeout. -/
  | roundTrip (req : Request) (timeout : Duration)
  deriving DecidableEq

/-- The process state a probe touches besides its Checker: the number of clock
readings taken, the counters of package metrics, the entries logged, and a
history of the probe's steps, which is written and never read. -/
structure Proc where
  clock : Nat
  atomicUp : Nat
  atomicDown : Nat
  atomicCheckTime : Nat
  log : List LogEntry
  history : List Event
  deriving DecidableEq

/-- The process state with one more entry in its history. -/
def Proc.record (p : Proc) (e : Event) : Proc :=
  { p with history := p.history ++ [e] }

/-- A call of `time.Now`. -/
def Proc.now (env : Env) (p : Proc) : Time × Proc :=
  (env.Now p.clock, { p with clock := p.clock + 1 })

/-! ## package metrics -/

/-- AddUp increments up counter (a `uint32`). -/
def AddUp (p : Proc) : Proc :=
  { p with atomicUp := (p.atomicUp + 1) % 2 ^ 32 }

/-- AddDown increments down counter (a `uint32`). -/
def AddDown (p : Proc) : Proc :=
  { p with atomicDown := (p.atomicDown + 1) % 2 ^ 32 }

/-- AddCheckTime adds check time: the milliseconds converted to `uint64`. -/
def AddCheckTime (p : Proc) (d : Duration) : Proc :=
  { p with atomicCheckTime := (p.atomicCheckTime + (d.Milliseconds % 2 ^ 64).toNat) % 2 ^ 64 }

/-! ## checker/checker.go -/

def maxTimeout : Duration := 30 * Second

def maxRedirects : Nat := 5

/-- Init initializers the checker. -/
def Init (env : Env) (req : CheckRequest) (p : Proc) : Checker × Proc :=
  let res := CheckResult.fresh req.URL req.Method
  let (start, p) := p.now env
  ({ Success := false, Req := req, Res := res, start := start }, p)

/-- The function literal Perform installs as `CheckRedirect`; `via` holds the
requests made already. -/
def CheckRedirect (c : Checker) (_req : Request) (via : List Request) : Option GoError :=
  -- Enable/disable redirects
  if !c.Req.Options.FollowRedirects then some ErrUseLastResponse
  -- Check if redirect limit has been exceeded
  else if via.length > maxRedirects then some errMaxRedirects
  else none

/-- The method handleError. It panics when the certificate summary does. -/
def handleError (env : Env) (c : Checker) (p : Proc) (_message : String) (err : GoError) :
    Option (Bool × Checker × Proc) :=
  let (now, p) := p.now env
  let total := now.Sub c.start
  let p := AddDown p
  let p := AddCheckTime p total
  let res := { c.Res with Time := some total, Timestamp := some now }
  let (unwrappedError, entries) := unwrapError c err
  let p := { p with log := p.log ++ entries }
  match certInfoFromCert env.sha256 unwrappedError.Cert with
  | none => none
  | some info =>
    let res := { res with Certificate := info, Error := unwrappedError.ToString,
                          Status := StatusDown }
    some (false, { c with Res := res, Success := false }, p)

/-- The method handleFailure. -/
def handleFailure (env : Env) (c : Checker) (p : Proc) (_message errorcode : String) :
    Bool × Checker × Proc :=
  let (now, p) := p.now env
  let total := now.Sub c.start
  let p := AddDown p
  let p := AddCheckTime p total
  let res := { c.Res with Time := some total, Timestamp := some now,
                          Error := errorcode, Status := StatusDown }
  (false, { c with Res := res, Success := false }, p)

/-- The headers Perform sets on every request. -/
def requestHeader : List (String × String) :=
  [("User-Agent", "Mozilla/5.0 (Windows NT 10.0; Win64; x64) AppleWebKit/537.36 (KHTML, like Gecko) Chrome/71.0.3578.80 Safari/537.36 (compatible; WatchSumo; +https://www.watchsumo.com)"),
   ("Accept", "text/html,*/*;q=0.5"),
   ("Accept-Charset", "utf-8,iso-8859-1;q=0.5")]

/-- The state performGetFallback leaves before it calls Perform again: the
request's method overwritten, a fresh result, a new start time. -/
def fallbackState (env : Env) (c : Checker) (p : Proc) : Checker × Proc :=
  let req := { c.Req with Method := "GET" }
  let res := CheckResult.fresh req.URL req.Method
  let (start, p) := p.now env
  ({ c with Req := req, Res := res, start := start }, p)

/-- The client Perform creates: TLS errors ignored on request, the redirect
policy, and the timeout converted from the request. -/
def httpClient (c : Checker) : Client :=
  { InsecureSkipVerify := c.Req.Options.IgnoreTLSErrors
    CheckRedirect := CheckRedirect c
    Timeout := if c.Req.Timeout > maxTimeout then maxTimeout else c.Req.Timeout }

/-- The request Perform creates, with its three headers set. -/
def httpRequest (c : Checker) : Request :=
  { Method := c.Req.Method, URL := c.Req.URL, Header := requestHeader }

/-- The timing block of Perform: the six phase durations and the total, from
the instants the hooks stored and the instant `t9` taken after the body has
been fully read. -/
def phaseDurations (tr : Trace) (t9 : Time) : RequestTiming × Duration :=
  -- we skipped the DNS lookup (it's an IP)
  let t0 := if tr.t0.IsZero then tr.t2 else tr.t0
  let dns := (tr.t1.Sub t0).Truncate Millisecond
  let connecting := (tr.t3.Sub tr.t2).Truncate Millisecond
  -- TLS handshake may have been skipped (existing TLS connection reused?)
  let tls : Duration :=
    if !tr.t4.IsZero && !tr.t5.IsZero then (tr.t5.Sub tr.t4).Truncate Millisecond
    else 0
  let sending := (tr.t7.Sub tr.t6).Truncate Millisecond
  let waiting := (tr.t8.Sub tr.t7).Truncate Millisecond
  let receiving := (t9.Sub tr.t8).Truncate Millisecond
  let total := (t9.Sub tr.t1).Truncate Millisecond
  ({ DNS := some dns, Connecting := some connecting, TLS := some tls,
     Sending := some sending, Waiting := some waiting, Receiving := some receiving }, total)

mutual

/-- Perform performs a check against a service. The result is `none` when the
certificate summary panics. The two `record` steps write the history and stand
for no statement of the source. -/
def Perform (env : Env) (c : Checker) (p : Proc) : Option (Bool × Checker × Proc) :=
  let p := p.record (Event.perform c.Req.Method)
  -- Verify scheme is correct
  if c.Req.URL.Scheme ≠ "http" ∧ c.Req.URL.Scheme ≠ "https" then
    let message := "Unsupported schema " ++ c.Req.URL.Scheme
    some (handleFailure env c p message (CheckError.ToString UnsupportedSchema))
  else
    -- Create HTTP client
    let client := httpClient c
    -- Create request
    match env.NewRequest c.Req.Method c.Req.URL with
    | some err =>
      -- Fallback to GET if a HEAD request fails
      if _h : c.Req.Method = "HEAD" ∧ c.Req.Options.GetFallback = true then
        performGetFallback env c p
      else handleError env c p "Unable to create request" err
    | none =>
      let req := httpRequest c
      -- Perform request
      let sent := p.record (Event.roundTrip req client.Timeout)
      match env.Do p.clock client req with
      | .error err =>
        if _h : c.Req.Method = "HEAD" ∧ c.Req.Options.GetFallback = true then
          performGetFallback env c sent
        else handleError env c sent "Error making request" err
      | .ok (resp, tr) =>
        -- Read body
        match resp.Body with
        | .error err =>
          if _h : c.Req.Method = "HEAD" ∧ c.Req.Options.GetFallback = true then
            performGetFallback env c sent
          else handleError env c sent "Error reading response body" err
        | .ok respBody =>
          let (t9, p) := sent.now env -- after body has been fully read
          let (timing, total) := phaseDurations tr t9
          let res := { c.Res with Timing := some timing, Time := some total,
                                  Timestamp := some t9 }
          let certificate : Option (Option CertInfo) :=
            match resp.TLS with
            | some state => certInfoFromTLSConnectionState env.sha256 state
            | none => some res.Certificate
          match certificate with
          | none => none
          | some info =>
            let res := { res with Certificate := info, Proto := resp.Proto,
                                  StatusText := resp.Status, StatusCode := resp.StatusCode,
                                  URL := resp.RequestURL, -- Update url if we were redirected
                                  Headers := resp.Header, Body := respBody }
            let c := { c with Res := res }
            -- Check status code
            if resp.StatusCode ≠ 200 ∧ resp.StatusCode ≠ 203 then
              if _h : c.Req.Method = "HEAD" ∧ c.Req.Options.GetFallback = true then
                performGetFallback env c p
              else
                some (handleFailure env c p "Unsuccessful status code"
                  (toString resp.StatusCode))
            else
              let c := { c with Res := { c.Res with Status := StatusUp }, Success := true }
              let p := AddUp p
              let p := AddCheckTime p total
              some (true, c, p)
termination_by (if c.Req.Method = "HEAD" then 2 else 0)
decreasing_by all_goals simp_all

/-- The method performGetFallback. -/
def performGetFallback (env : Env) (c : Checker) (p : Proc) :
    Option (Bool × Checker × Proc) :=
  Perform env (fallbackState env c p).1 (fallbackState env c p).2
termination_by 1
decreasing_by simp [fallbackState]

end

/-! ## cmd/start.go (the encoding of a result)

In this part a Go string is the list of its bytes, since truncate cuts a string
between bytes. -/

/-- A Go string as its bytes. -/
abbrev Bytes := List Nat

/-- MaxHeaderKeyLength truncate header keys to this size. -/
def MaxHeaderKeyLength : Int := 50

/-- MaxHeaderValueLength truncate header values to this size. -/
def MaxHeaderValueLength : Int := 250

/-- MaxBodyLength truncate body to this size. -/
def MaxBodyLength : Int := 250

/-- The table `first` of package unicode/utf8 for the bytes that start a
sequence of more than one byte: the size of the sequence and the range accepted
for its second byte. ASCII bytes and the bytes that start no sequence have
`none`. -/
def first (b : Nat) : Option (Nat × Nat × Nat) :=
  if 0xC2 ≤ b ∧ b ≤ 0xDF then some (2, 0x80, 0xBF)
  else if b = 0xE0 then some (3, 0xA0, 0xBF)
  else if 0xE1 ≤ b ∧ b ≤ 0xEC then some (3, 0x80, 0xBF)
  else if b = 0xED then some (3, 0x80, 0x9F)
  else if 0xEE ≤ b ∧ b ≤ 0xEF then some (3, 0x80, 0xBF)
  else if b = 0xF0 then some (4, 0x90, 0xBF)
  else if 0xF1 ≤ b ∧ b ≤ 0xF3 then some (4, 0x80, 0xBF)
  else if b = 0xF4 then some (4, 0x80, 0x8F)
  else none

/-- The width `utf8.DecodeRuneInString` returns: 0 for the empty string, the
size of the sequence at the start of `s` when it is well formed, and 1
otherwise (for an ASCII byte, and with RuneError for an invalid one). -/
def DecodeRuneInString (s : Bytes) : Nat :=
  match s with
  | [] => 0
  | s0 :: rest =>
    match first s0 with
    | none => 1
    | some (sz, lo, hi) =>
      if s.length < sz then 1
      else if rest.getD 0 0 < lo ∨ hi < rest.getD 0 0 then 1
      else if sz ≤ 2 then 2
      else if rest.getD 1 0 < 0x80 ∨ 0xBF < rest.getD 1 0 then 1
      else if sz ≤ 3 then 3
      else if rest.getD 2 0 < 0x80 ∨ 0xBF < rest.getD 2 0 then 1
      else 4

/-- The copying loop of `strings.ToValidUTF8`: ASCII bytes and well-formed
sequences are copied, and each run of invalid bytes is replaced by one copy of
the replacement. `invalid` tells whether the previous byte was invalid. Every
round consumes a byte at least, so `len(s)` rounds suffice. -/
def toValidLoop (replacement : Bytes) : Nat → Bool → Bytes → Bytes
  | 0, _, _ => []
  | fuel + 1, invalid, s =>
    match s with
    | [] => []
    | c :: rest =>
      if c < 0x80 then c :: toValidLoop replacement fuel false rest
      else if DecodeRuneInString s = 1 then
        (if invalid then [] else replacement) ++ toValidLoop replacement fuel true rest
      else
        s.take (DecodeRuneInString s)
          ++ toValidLoop replacement fuel false (s.drop (DecodeRuneInString s))

/-- The function `strings.ToValidUTF8`. (Its first loop, which returns a string
without invalid bytes as it is, gives what the copying loop gives.) -/
def ToValidUTF8 (s replacement : Bytes) : Bytes :=
  toValidLoop replacement s.length false s

/-- The function `strings.Join`. -/
def Join (elems : List Bytes) (sep : Bytes) : Bytes :=
  sep.intercalate elems

/-- The function truncate. The slice expression `s[:length]` panics for a
negative length. -/
def truncate (s : Bytes) (length : Int) : Option Bytes :=
  if (s.length : Int) < length then some s
  else if length < 0 then none
  else some (ToValidUTF8 (s.take length.toNat) [])

/-- A `pb.Header`. -/
structure Header where
  Key : Bytes
  Value : Bytes
  deriving DecidableEq

/-- The function encodeHeaders; `headers` lists the entries of the map in the
order the loop visits them. -/
def encodeHeaders : List (Bytes × List Bytes) → Option (List Header)
  | [] => some []
  | (k, vs) :: rest =>
    match truncate k MaxHeaderKeyLength,
          truncate (Join vs [0x3B, 0x20]) MaxHeaderValueLength,
          encodeHeaders rest with
    | some key, some value, some res => some (⟨key, value⟩ :: res)
    | _, _, _ => none

/-- The field Body of the response startClient builds. -/
def encodeBody (body : Bytes) : Option Bytes :=
  truncate body MaxBodyLength

/-! ## vocabulary of the statements and concrete inputs -/

/-- The scheme check of Perform passes. -/
def schemeSupported (c : Checker) : Prop :=
  c.Req.URL.Scheme = "http" ∨ c.Req.URL.Scheme = "https"

instance (c : Checker) : Decidable (schemeSupported c) := by
  unfold schemeSupported; infer_instance

/-- The condition under which a failed attempt is retried with GET. -/
def fallbackApplies (c : Checker) : Prop :=
  c.Req.Method = "HEAD" ∧ c.Req.Options.GetFallback = true

instance (c : Checker) : Decidable (fallbackApplies c) := by
  unfold fallbackApplies; infer_instance

/-- The process state once Perform has been entered. -/
def entered (c : Checker) (p : Proc) : Proc :=
  p.record (Event.perform c.Req.Method)

/-- The process state once the request has been handed to the client. -/
def sent (c : Checker) (p : Proc) : Proc :=
  (entered c p).record (Event.roundTrip (httpRequest c) (httpClient c).Timeout)

/-- The process state once the body has been read and the clock read for `t9`. -/
def received (env : Env) (c : Checker) (p : Proc) : Proc :=
  ((sent c p).now env).2

/-- The instant `t9` of an attempt started in process state `p`. -/
def bodyReadAt (env : Env) (p : Proc) : Time :=
  env.Now p.clock

/-- The result Perform has written when it reaches the status code check. -/
def populated (env : Env) (c : Checker) (p : Proc) (resp : Response) (tr : Trace)
    (info : Option CertInfo) (body : String) : Checker :=
  { c with Res :=
    { c.Res with
      Timing := some (phaseDurations tr (bodyReadAt env p)).1
      Time := some (phaseDurations tr (bodyReadAt env p)).2
      Timestamp := some (bodyReadAt env p)
      Certificate := info
      Proto := resp.Proto
      StatusText := resp.Status
      StatusCode := resp.StatusCode
      URL := resp.RequestURL
      Headers := resp.Header
      Body := body } }

/-- The certificate summary Perform computes for a response: the leaf's when
TLS was used, the result's previous one otherwise. -/
def responseCertificate (env : Env) (c : Checker) (resp : Response) :
    Option (Option CertInfo) :=
  match resp.TLS with
  | some state => certInfoFromTLSConnectionState env.sha256 state
  | none => some c.Res.Certificate

/-- The result of a successful probe: the populated result marked up. -/
def markedUp (c : Checker) : Checker :=
  { c with Res := { c.Res with Status := StatusUp }, Success := true }

/-- A process state in which nothing has happened yet. -/
def idle : Proc :=
  { clock := 0, atomicUp := 0, atomicDown := 0, atomicCheckTime := 0, log := [], history := [] }

/-- A clock that ticks once a second, wall and monotonic readings agreeing. -/
def tick (n : Nat) : Time :=
  { wall := 63000000000000000000 + 1000000000 * n, mono := some (1000000000 * n) }

/-- The target `https://example.com/`. -/
def exampleURL : URL :=
  { Scheme := "https", Host := "example.com", Path := "/", RawQuery := "" }

/-- A probe request for a URL, with a five second timeout and redirects followed. -/
def probe (method : String) (url : URL) (getFallback : Bool) : CheckRequest :=
  { Ref := "-1", Method := method, URL := url, Timeout := 5 * Second,
    Options := { GetFallback := getFallback, IgnoreTLSErrors := false, FollowRedirects := true } }

/-- A trace in which every hook fired, one millisecond apart. -/
def fullTrace : Trace :=
  { t0 := ⟨63000000000000000000, some 0⟩, t1 := ⟨63000000000001000000, some 1000000⟩,
    t2 := ⟨63000000000002000000, some 2000000⟩, t3 := ⟨63000000000003000000, some 3000000⟩,
    t4 := ⟨63000000000004000000, some 4000000⟩, t5 := ⟨63000000000005000000, some 5000000⟩,
    t6 := ⟨63000000000006000000, some 6000000⟩, t7 := ⟨63000000000007000000, some 7000000⟩,
    t8 := ⟨63000000000008000000, some 8000000⟩ }

/-- A leaf certificate with the given serial number. -/
def leaf (serial : Int) : Certificate :=
  { Raw := [48, 130], SerialNumber := serial, SignatureAlgorithm := 4,
    NotBefore := tick 0, NotAfter := tick 1,
    Subject := { CommonName := "example.com", Organization := [] },
    Issuer := { CommonName := "Example CA", Organization := ["Example"] },
    DNSNames := ["example.com"], IsCA := false,
    SubjectKeyId := some [1], AuthorityKeyId := some [2] }

/-- A response with the given status code, over TLS when a leaf is given. -/
def reply (code : Int) (cert : Option Certificate) : Response :=
  { Status := "", StatusCode := code, Proto := "HTTP/1.1", Header := [],
    RequestURL := exampleURL, TLS := cert.map fun x => { PeerCertificates := [x] },
    Body := .ok "" }

/-- An environment in which every request is answered by the same response. -/
def answering (resp : Response) : Env :=
  { Now := tick, NewRequest := fun _ _ => none, Do := fun _ _ _ => .ok (resp, fullTrace),
    sha256 := fun _ => [] }

/-- An environment in which HEAD requests get one response and all others another. -/
def answeringHead (head other : Response) : Env :=
  { Now := tick, NewRequest := fun _ _ => none,
    Do := fun _ _ req => if req.Method = "HEAD" then .ok (head, fullTrace)
                         else .ok (other, fullTrace),
    sha256 := fun _ => [] }

/-- An environment in which every request fails with the same error. -/
def failing (err : GoError) : Env :=
  { Now := tick, NewRequest := fun _ _ => none, Do := fun _ _ _ => .error err,
    sha256 := fun _ => [] }

/-- The error `client.Do` returns when the client timeout expires before the
response headers arrive. -/
def clientTimeout : GoError :=
  .urlError "Get" "https://example.com/"
    (.httpError "net/http: request canceled (Client.Timeout exceeded while awaiting headers)"
      true)

/-- What `Client.Do` reports of a chain of redirects. -/
inductive ChainResult where
  /-- Every redirect was followed; `requests` requests were made in all. -/
  | followed (requests : Nat)
  /-- The policy answered ErrUseLastResponse: the redirect response is returned. -/
  | lastResponse (requests : Nat)
  /-- The policy refused the hop after `requests` requests with this error,
  which `Client.Do` returns wrapped in a `*url.Error`. -/
  | refused (requests : Nat) (err : GoError)
  deriving DecidableEq

/-- The redirect loop of `http.Client.Do`, after the documentation of net/http:
`via` holds the requests made already, the response to the last of them is a
redirect as long as `hops` is not zero, and the policy is asked before each
further request. -/
def followChain (policy : Request → List Request → Option GoError) (req : Request) :
    Nat → List Request → ChainResult
  | 0, via => .followed via.length
  | hops + 1, via =>
    match policy req via with
    | none => followChain policy req hops (via ++ [req])
    | some err =>
      if err = ErrUseLastResponse then .lastResponse via.length
      else .refused via.length (.urlError req.Method req.URL.Host err)

/-- The methods Perform was entered with, oldest first. -/
def attempts : List Event → List String
  | [] => []
  | .perform method :: rest => method :: attempts rest
  | .roundTrip _ _ :: rest => attempts rest

/-- The ways an attempt of Perform fails: at request construction, at request
execution, at the body read, or at the status code check (which it reaches
with the result populated). -/
inductive Failure where
  | construct (err : GoError)
  | execute (err : GoError)
  | read (resp : Response) (tr : Trace) (err : GoError)
  | status (resp : Response) (tr : Trace) (body : String) (info : Option CertInfo)

/-- The attempt of checker `c` started in process state `p` fails in this way. -/
def Failure.occurs (env : Env) (c : Checker) (p : Proc) : Failure → Prop
  | .construct err =>
    schemeSupported c ∧ env.NewRequest c.Req.Method c.Req.URL = some err
  | .execute err =>
    schemeSupported c ∧ env.NewRequest c.Req.Method c.Req.URL = none ∧
    env.Do p.clock (httpClient c) (httpRequest c) = .error err
  | .read resp tr err =>
    schemeSupported c ∧ env.NewRequest c.Req.Method c.Req.URL = none ∧
    env.Do p.clock (httpClient c) (httpRequest c) = .ok (resp, tr) ∧
    resp.Body = .error err
  | .status resp tr body info =>
    schemeSupported c ∧ env.NewRequest c.Req.Method c.Req.URL = none ∧
    env.Do p.clock (httpClient c) (httpRequest c) = .ok (resp, tr) ∧
    resp.Body = .ok body ∧ responseCertificate env c resp = some info ∧
    resp.StatusCode ≠ 200 ∧ resp.StatusCode ≠ 203

/-- The process state at the point of the failure. -/
def Failure.proc (env : Env) (c : Checker) (p : Proc) : Failure → Proc
  | .construct _ => entered c p
  | .execute _ => sent c p
  | .read _ _ _ => sent c p
  | .status _ _ _ _ => received env c p

/-- The status code the failed attempt has recorded in the result. -/
def Failure.statusCode (c : Checker) : Failure → Int
  | .status resp _ _ _ => resp.StatusCode
  | _ => c.Res.StatusCode

/-- The error code of the failed attempt: the classification of the error, or
the decimal status code. -/
def Failure.errorCode (c : Checker) : Failure → String
  | .construct err => (unwrapError c err).1.ToString
  | .execute err => (unwrapError c err).1.ToString
  | .read _ _ err => (unwrapError c err).1.ToString
  | .status resp _ _ _ => toString resp.StatusCode

/-- What Perform does with the failure when no fallback applies. -/
def Failure.handled (env : Env) (c : Checker) (p : Proc) :
    Failure → Option (Bool × Checker × Proc)
  | .construct err => handleError env c (entered c p) "Unable to create request" err
  | .execute err => handleError env c (sent c p) "Error making request" err
  | .read _ _ err => handleError env c (sent c p) "Error reading response body" err
  | .status resp tr body info =>
    some (handleFailure env (populated env c p resp tr info body) (received env c p)
      "Unsuccessful status code" (toString resp.StatusCode))

/-- The independent GET probe of the request of a HEAD probe. -/
def asGet (req : CheckRequest) : CheckRequest :=
  { req with Method := "GET" }

/-- The checker of a GET probe of `https://example.com/`. -/
def sampleChecker : Checker :=
  (Init (answering (reply 200 none)) (probe "GET" exampleURL false) idle).1

/-- The shape of the entry unhandledError logs for a call on checker `c`. -/
def Logged (c : Checker) (entries : List LogEntry) : Prop :=
  ∃ e parent, entries =
    [⟨.Warn, "Unhandled error",
      [("Ref", .str c.Req.Ref), ("Err", .err e), ("Type", .str e.typeName),
       ("Parent", .str parent)]⟩]

/-- Every round trip among these history entries was made with client timeout `d`. -/
def tripsUse (d : Duration) (es : List Event) : Prop :=
  ∀ r t, Event.roundTrip r t ∈ es → t = d

/-- The exchange of checker `c` started in process state `p` completes with
this response, trace, body and certificate summary, and passes the status
code check. -/
def succeeds (env : Env) (c : Checker) (p : Proc) (resp : Response) (tr : Trace)
    (body : String) (info : Option CertInfo) : Prop :=
  schemeSupported c ∧ env.NewRequest c.Req.Method c.Req.URL = none ∧
  env.Do p.clock (httpClient c) (httpRequest c) = .ok (resp, tr) ∧
  resp.Body = .ok body ∧ responseCertificate env c resp = some info ∧
  (resp.StatusCode = 200 ∨ resp.StatusCode = 203)

/-- What Perform returns for a successful exchange. -/
def success (env : Env) (c : Checker) (p : Proc) (resp : Response) (tr : Trace)
    (body : String) (info : Option CertInfo) : Bool × Checker × Proc :=
  (true, markedUp (populated env c p resp tr info body),
    AddCheckTime (AddUp (received env c p)) (phaseDurations tr (bodyReadAt env p)).2)

/-- The result `r` is what one attempt of checker `c` gives without a fallback:
the rejection of the scheme, a handled failure, or a success. -/
def attemptYields (env : Env) (c : Checker) (p : Proc) (r : Bool × Checker × Proc) : Prop :=
  (¬ schemeSupported c ∧
    r = handleFailure env c (entered c p) ("Unsupported schema " ++ c.Req.URL.Scheme)
      (CheckError.ToString UnsupportedSchema)) ∨
  (∃ f : Failure, f.occurs env c p ∧ f.handled env c p = some r) ∨
  (∃ resp tr body info, succeeds env c p resp tr body info ∧
    r = success env c p resp tr body info)

/-- The strings of a list in order, joined by single spaces. -/
def spaced : List String → String
  | [] => ""
  | [a] => a
  | a :: b :: rest => a ++ " " ++ spaced (b :: rest)

/-- The value is a reading of the clock, an instant `time.Now` returned: not the
zero instant, and with a monotonic reading, which is a non-negative `int64`. -/
def Time.isReading (t : Time) : Prop :=
  t.wall ≠ 0 ∧ ∃ m : Int, t.mono = some m ∧ 0 ≤ m ∧ m < 2 ^ 63

/-- The monotonic reading of an instant, in nanoseconds. -/
def Time.nanos (t : Time) : Int :=
  t.mono.getD 0

/-- An environment in which every request is answered by the same response,
with the given trace. -/
def answeringWith (resp : Response) (tr : Trace) : Env :=
  { Now := tick, NewRequest := fun _ _ => none, Do := fun _ _ _ => .ok (resp, tr),
    sha256 := fun _ => [] }

/-- The target `http://192.0.2.1/`, a literal address. -/
def addressURL : URL :=
  { Scheme := "http", Host := "192.0.2.1", Path := "/", RawQuery := "" }

/-- The trace of an exchange with a literal address over plain http: neither
DNS hook and neither TLS hook fired, the others fired one millisecond apart. -/
def addressTrace : Trace :=
  { t0 := Time.zero, t1 := Time.zero,
    t2 := ⟨63000000000002000000, some 2000000⟩, t3 := ⟨63000000000003000000, some 3000000⟩,
    t4 := Time.zero, t5 := Time.zero,
    t6 := ⟨63000000000006000000, some 6000000⟩, t7 := ⟨63000000000007000000, some 7000000⟩,
    t8 := ⟨63000000000008000000, some 8000000⟩ }

/-- The trace of an exchange over plain http with a host name: the TLS hooks
did not fire, the others fired one millisecond apart. -/
def plainTrace : Trace :=
  { fullTrace with t4 := Time.zero, t5 := Time.zero }

/-- A probe request with timeout zero, which is what a job without a timeout
becomes (cmd/start.go). -/
def untimedProbe : CheckRequest :=
  { probe "GET" exampleURL false with Timeout := 0 }

/-- A trace in which every hook fired, at instants that are not whole
milliseconds apart: the intervals last 1.2 ms, 1.4 ms, 2.9 ms, 1 ns and
1.999998 ms. -/
def unevenTrace : Trace :=
  { t0 := ⟨63000000000000000000, some 0⟩, t1 := ⟨63000000000001200000, some 1200000⟩,
    t2 := ⟨63000000000002700000, some 2700000⟩, t3 := ⟨63000000000004100000, some 4100000⟩,
    t4 := ⟨63000000000005000000, some 5000000⟩, t5 := ⟨63000000000007900000, some 7900000⟩,
    t6 := ⟨63000000000008000000, some 8000000⟩, t7 := ⟨63000000000008000001, some 8000001⟩,
    t8 := ⟨63000000000009999999, some 9999999⟩ }

/-- Every hook fired, so that `t0` .. `t8` and `t9` are readings of the clock,
and the instants are non-decreasing in the order DNS-start, DNS-done,
connect-start, connect-done, TLS-start, TLS-done, connection-acquired,
headers-written, first-response-byte, body-fully-read. -/
def hooksOrdered (tr : Trace) (t9 : Time) : Prop :=
  tr.t0.isReading ∧ tr.t1.isReading ∧ tr.t2.isReading ∧ tr.t3.isReading ∧
  tr.t4.isReading ∧ tr.t5.isReading ∧ tr.t6.isReading ∧ tr.t7.isReading ∧
  tr.t8.isReading ∧ t9.isReading ∧
  tr.t0.nanos ≤ tr.t1.nanos ∧ tr.t1.nanos ≤ tr.t2.nanos ∧ tr.t2.nanos ≤ tr.t3.nanos ∧
  tr.t3.nanos ≤ tr.t4.nanos ∧ tr.t4.nanos ≤ tr.t5.nanos ∧ tr.t5.nanos ≤ tr.t6.nanos ∧
  tr.t6.nanos ≤ tr.t7.nanos ∧ tr.t7.nanos ≤ tr.t8.nanos ∧ tr.t8.nanos ≤ t9.nanos

/-- A duration is a non-negative whole number of milliseconds. -/
def wholeMillis (d : Duration) : Prop :=
  0 ≤ d ∧ (1000000 : Int) ∣ d

/-- A continuation byte of UTF-8. -/
def isCont (b : Nat) : Prop :=
  0x80 ≤ b ∧ b ≤ 0xBF

instance (b : Nat) : Decidable (isCont b) := by
  unfold isCont
  infer_instance

/-- The well-formed UTF-8 byte sequences of one character (the Unicode
Standard, table 3-7). -/
def validRune : Bytes → Prop
  | [b0] => b0 < 0x80
  | [b0, b1] => 0xC2 ≤ b0 ∧ b0 ≤ 0xDF ∧ isCont b1
  | [b0, b1, b2] =>
    ((b0 = 0xE0 ∧ 0xA0 ≤ b1 ∧ b1 ≤ 0xBF) ∨ (0xE1 ≤ b0 ∧ b0 ≤ 0xEC ∧ isCont b1) ∨
     (b0 = 0xED ∧ 0x80 ≤ b1 ∧ b1 ≤ 0x9F) ∨ (0xEE ≤ b0 ∧ b0 ≤ 0xEF ∧ isCont b1)) ∧ isCont b2
  | [b0, b1, b2, b3] =>
    ((b0 = 0xF0 ∧ 0x90 ≤ b1 ∧ b1 ≤ 0xBF) ∨ (0xF1 ≤ b0 ∧ b0 ≤ 0xF3 ∧ isCont b1) ∨
     (b0 = 0xF4 ∧ 0x80 ≤ b1 ∧ b1 ≤ 0x8F)) ∧ isCont b2 ∧ isCont b3
  | _ => False

instance (r : Bytes) : Decidable (validRune r) := by
  unfold validRune
  split <;> infer_instance

/-- The number of leading characters of `rs` that fit into `n` bytes. -/
def fit : List Bytes → Nat → Nat
  | [], _ => 0
  | r :: rs, n => if r.length ≤ n then fit rs (n - r.length) + 1 else 0

/-- The lead byte `c` starts a sequence of `sz` bytes and accepts `b1` as the
second byte, by the table `first`. -/
def leadPair (sz c b1 : Nat) : Prop :=
  ∃ lo hi, first c = some (sz, lo, hi) ∧ lo ≤ b1 ∧ b1 ≤ hi

/-- The bytes of the word café: three ASCII letters and a two-byte character. -/
def cafe : Bytes :=
  [0x63, 0x61, 0x66, 0xC3, 0xA9]

/-- The content of `buf` after the loop of extractSerial: for each byte its two
lower-case digits and a colon. -/
def colonPairs : List Nat → List Char
  | [] => []
  | b :: bs => hexDigit (b / 16) :: hexDigit (b % 16) :: ':' :: colonPairs bs

/-- The upper-case hexadecimal digit of a value below 16. -/
def upperHexDigit (n : Nat) : Char :=
  "0123456789ABCDEF".toList.getD n '0'

/-- The serial string as the specification words it: two upper-case
hexadecimal digits per byte, the pairs joined by colons. -/
def serialChars : List Nat → List Char
  | [] => []
  | [b] => [upperHexDigit (b / 16), upperHexDigit (b % 16)]
  | b :: bs => upperHexDigit (b / 16) :: upperHexDigit (b % 16) :: ':' :: serialChars bs

/-- The value of an upper-case hexadecimal digit. -/
def hexValue (c : Char) : Nat :=
  "0123456789ABCDEF".toList.indexOf c

/-- The bytes that colon-separated pairs of hexadecimal digits stand for. -/
def decodeSerial : List Char → List Nat
  | [h, l] => [16 * hexValue h + hexValue l]
  | h :: l :: _ :: rest => (16 * hexValue h + hexValue l) :: decodeSerial rest
  | _ => []

/-- The error `client.Do` returns when the TLS handshake with the server has
not finished within the ten seconds the transport allows, with a client
timeout above ten seconds. -/
def handshakeTimeout : GoError :=
  .urlError "Get" "https://example.com/" tlsHandshakeTimeout

/-! ## the paths of Perform -/

theorem perform_unsupported (env : Env) (c : Checker) (p : Proc)
    (hs : ¬ schemeSupported c) :
    Perform env c p = some (handleFailure env c (entered c p)
      ("Unsupported schema " ++ c.Req.URL.Scheme) (CheckError.ToString UnsupportedSchema)) := by
  have h : c.Req.URL.Scheme ≠ "http" ∧ c.Req.URL.Scheme ≠ "https" := by
    simpa [schemeSupported, not_or] using hs
  rw [Perform]
  simp [h, entered]

theorem perform_construct (env : Env) (c : Checker) (p : Proc) (err : GoError)
    (hs : schemeSupported c) (hn : env.NewRequest c.Req.Method c.Req.URL = some err) :
    Perform env c p =
      if fallbackApplies c then
        Perform env (fallbackState env c (entered c p)).1 (fallbackState env c (entered c p)).2
      else handleError env c (entered c p) "Unable to create request" err := by
  have h : ¬ (c.Req.URL.Scheme ≠ "http" ∧ c.Req.URL.Scheme ≠ "https") := by
    unfold schemeSupported at hs; tauto
  rw [Perform]
  simp only [h, if_false, hn, entered, fallbackApplies]
  split <;> simp_all [performGetFallback]

theorem perform_execute (env : Env) (c : Checker) (p : Proc) (err : GoError)
    (hs : schemeSupported c) (hn : env.NewRequest c.Req.Method c.Req.URL = none)
    (hd : env.Do p.clock (httpClient c) (httpRequest c) = .error err) :
    Perform env c p =
      if fallbackApplies c then
        Perform env (fallbackState env c (sent c p)).1 (fallbackState env c (sent c p)).2
      else handleError env c (sent c p) "Error making request" err := by
  have h : ¬ (c.Req.URL.Scheme ≠ "http" ∧ c.Req.URL.Scheme ≠ "https") := by
    unfold schemeSupported at hs; tauto
  have hd' : env.Do (p.record (Event.perform c.Req.Method)).clock (httpClient c)
      (httpRequest c) = .error err := hd
  rw [Perform]
  simp only [h, if_false, hn, hd', sent, entered, fallbackApplies]
  split <;> simp_all [performGetFallback]

theorem perform_read (env : Env) (c : Checker) (p : Proc) (resp : Response) (tr : Trace)
    (err : GoError)
    (hs : schemeSupported c) (hn : env.NewRequest c.Req.Method c.Req.URL = none)
    (hd : env.Do p.clock (httpClient c) (httpRequest c) = .ok (resp, tr))
    (hb : resp.Body = .error err) :
    Perform env c p =
      if fallbackApplies c then
        Perform env (fallbackState env c (sent c p)).1 (fallbackState env c (sent c p)).2
      else handleError env c (sent c p) "Error reading response body" err := by
  have h : ¬ (c.Req.URL.Scheme ≠ "http" ∧ c.Req.URL.Scheme ≠ "https") := by
    unfold schemeSupported at hs; tauto
  have hd' : env.Do (p.record (Event.perform c.Req.Method)).clock (httpClient c)
      (httpRequest c) = .ok (resp, tr) := hd
  rw [Perform]
  simp only [h, if_false, hn, hd', hb, sent, entered, fallbackApplies]
  split <;> simp_all [performGetFallback]

theorem fallbackState_res (env : Env) (c : Checker) (p : Proc) (res : CheckResult) :
    fallbackState env { c with Res := res } p = fallbackState env c p := by
  simp [fallbackState]

theorem perform_completed (env : Env) (c : Checker) (p : Proc) (resp : Response) (tr : Trace)
    (body : String)
    (hs : schemeSupported c) (hn : env.NewRequest c.Req.Method c.Req.URL = none)
    (hd : env.Do p.clock (httpClient c) (httpRequest c) = .ok (resp, tr))
    (hb : resp.Body = .ok body) :
    Perform env c p =
      match responseCertificate env c resp with
      | none => none
      | some info =>
        if resp.StatusCode ≠ 200 ∧ resp.StatusCode ≠ 203 then
          if fallbackApplies c then
            Perform env (fallbackState env c (received env c p)).1
              (fallbackState env c (received env c p)).2
          else
            some (handleFailure env (populated env c p resp tr info body) (received env c p)
              "Unsuccessful status code" (toString resp.StatusCode))
        else
          some (true, markedUp (populated env c p resp tr info body),
            AddCheckTime (AddUp (received env c p)) (phaseDurations tr (bodyReadAt env p)).2) := by
  have h : ¬ (c.Req.URL.Scheme ≠ "http" ∧ c.Req.URL.Scheme ≠ "https") := by
    unfold schemeSupported at hs; tauto
  have hd' : env.Do (p.record (Event.perform c.Req.Method)).clock (httpClient c)
      (httpRequest c) = .ok (resp, tr) := hd
  rw [Perform]
  simp only [h, if_false, hn, hd', hb]
  unfold responseCertificate
  cases hT : resp.TLS with
  | none =>
    simp only [Proc.now, Proc.record]
    by_cases hc : resp.StatusCode ≠ 200 ∧ resp.StatusCode ≠ 203
    · by_cases hf : fallbackApplies c
      · have hf' := hf
        unfold fallbackApplies at hf'
        simp [hc, hf, hf', performGetFallback, fallbackState, received, sent, entered,
          Proc.now, Proc.record]
      · have hf' := hf
        unfold fallbackApplies at hf'
        simp [hc, hf, hf', populated, received, sent, entered, Proc.now, Proc.record,
          bodyReadAt]
    · simp [hc, populated, markedUp, received, sent, entered, Proc.now, Proc.record,
        bodyReadAt]
  | some state =>
    simp only [Proc.now, Proc.record]
    cases hI : certInfoFromTLSConnectionState env.sha256 state with
    | none => rfl
    | some info =>
      by_cases hc : resp.StatusCode ≠ 200 ∧ resp.StatusCode ≠ 203
      · by_cases hf : fallbackApplies c
        · have hf' := hf
          unfold fallbackApplies at hf'
          simp [hc, hf, hf', performGetFallback, fallbackState, received, sent, entered,
            Proc.now, Proc.record]
        · have hf' := hf
          unfold fallbackApplies at hf'
          simp [hc, hf, hf', populated, received, sent, entered, Proc.now, Proc.record,
            bodyReadAt]
      · simp [hc, populated, markedUp, received, sent, entered, Proc.now, Proc.record,
          bodyReadAt]

/-! ## C1: the status code rule -/

theorem extractSerial_zero (cert : Certificate) (h : cert.SerialNumber = 0) :
    extractSerial cert = none := by
  simp [extractSerial, bigIntBytes, h, serialLoop]

/-- The status code rule on every completed exchange whose certificate summary
is available and to which no GET fallback applies: 200 and 203 give true and
up with the error left empty, every other code gives false and down with the
decimal code as the error. -/
theorem perform_status_rule (env : Env) (req : CheckRequest) (p0 : Proc)
    (resp : Response) (tr : Trace) (body : String) (info : Option CertInfo)
    (hs : schemeSupported (Init env req p0).1)
    (hn : env.NewRequest req.Method req.URL = none)
    (hd : env.Do (Init env req p0).2.clock (httpClient (Init env req p0).1)
      (httpRequest (Init env req p0).1) = .ok (resp, tr))
    (hb : resp.Body = .ok body)
    (hf : ¬ fallbackApplies (Init env req p0).1)
    (hi : responseCertificate env (Init env req p0).1 resp = some info) :
    ∃ c p, Perform env (Init env req p0).1 (Init env req p0).2
        = some (decide (resp.StatusCode = 200 ∨ resp.StatusCode = 203), c, p) ∧
      c.Res.StatusCode = resp.StatusCode ∧
      ((resp.StatusCode = 200 ∨ resp.StatusCode = 203) →
        c.Success = true ∧ c.Res.Success = true ∧ c.Res.Status = StatusUp ∧ c.Res.Error = "") ∧
      (¬ (resp.StatusCode = 200 ∨ resp.StatusCode = 203) →
        c.Success = false ∧ c.Res.Success = false ∧ c.Res.Status = StatusDown ∧
        c.Res.Error = toString resp.StatusCode) := by
  rw [perform_completed env _ _ resp tr body hs hn hd hb, hi]
  by_cases hc : resp.StatusCode = 200 ∨ resp.StatusCode = 203
  · have hc' : ¬ (resp.StatusCode ≠ 200 ∧ resp.StatusCode ≠ 203) := by tauto
    refine ⟨_, _, by simp only [hc', if_false, hc, decide_True]; rfl, ?_⟩
    simp [hc, markedUp, populated, CheckResult.Success, Init, CheckResult.fresh]
  · have hc' : resp.StatusCode ≠ 200 ∧ resp.StatusCode ≠ 203 := by tauto
    refine ⟨_, _, by simp only [hc', if_true, hf, if_false, hc, handleFailure, decide_False,
      and_self, ne_eq, not_false_eq_true]; rfl, ?_⟩
    simp [hc, populated, CheckResult.Success, StatusDown, StatusUp]

theorem perform_status_rule_witness :
    ∃ c p, Perform (answering (reply 404 (some (leaf 7))))
        (Init (answering (reply 404 (some (leaf 7)))) (probe "GET" exampleURL true) idle).1
        (Init (answering (reply 404 (some (leaf 7)))) (probe "GET" exampleURL true) idle).2
        = some (false, c, p) ∧ c.Res.Error = "404" := by
  obtain ⟨c, p, h, -, -, h2⟩ := perform_status_rule (answering (reply 404 (some (leaf 7))))
    (probe "GET" exampleURL true) idle (reply 404 (some (leaf 7))) fullTrace ""
    (some { SerialString := "07", Serial := [7], Algorithm := 4, ValidFrom := tick 0,
            ValidTo := tick 1, Subject := "example.com", Issuer := "Example CA (Example)",
            FingerprintSHA256 := [] })
    (by decide) rfl rfl rfl (by decide)
    (by simp [responseCertificate, reply, leaf, certInfoFromTLSConnectionState,
          certInfoFromCert, extractSerial, bigIntBytes, serialLoop, hexEncode, hexDigit,
          extractSubject, extractIssuer, extractFingerprintSHA256, answering]
        decide)
  exact ⟨c, p, h, (h2 (by decide)).2.2.2⟩

/-- C1, at a completed exchange over TLS whose leaf certificate has serial
number zero: the response has status code 200, no GET fallback applies (the
method is GET), and Perform does not return: it panics in extractSerial. -/
theorem perform_panics_on_zero_serial :
    Perform (answering (reply 200 (some (leaf 0))))
      (Init (answering (reply 200 (some (leaf 0)))) (probe "GET" exampleURL false) idle).1
      (Init (answering (reply 200 (some (leaf 0)))) (probe "GET" exampleURL false) idle).2
      = none := by
  rw [perform_completed _ _ _ (reply 200 (some (leaf 0))) fullTrace "" (by decide) rfl rfl rfl]
  have h : responseCertificate (answering (reply 200 (some (leaf 0))))
      (Init (answering (reply 200 (some (leaf 0)))) (probe "GET" exampleURL false) idle).1
      (reply 200 (some (leaf 0))) = none := by
    simp [responseCertificate, reply, certInfoFromTLSConnectionState, certInfoFromCert,
      extractSerial_zero (leaf 0) rfl]
  rw [h]

/-! ## C2: unsupported scheme -/

/-- C2: for every request whose URL scheme is neither "http" nor "https", Init
followed by Perform returns false and leaves a result that is down with error
"unsupported_schema", Success false, status code 0, no timing and no
certificate; the history gains the entry of Perform and no round trip, and the
result does not depend on what the network would have answered. -/
theorem unsupported_scheme_is_down (env : Env) (req : CheckRequest) (p0 : Proc)
    (h1 : req.URL.Scheme ≠ "http") (h2 : req.URL.Scheme ≠ "https") :
    ∃ c p, Perform env (Init env req p0).1 (Init env req p0).2 = some (false, c, p) ∧
      c.Res.Status = StatusDown ∧ c.Res.Error = "unsupported_schema" ∧
      c.Success = false ∧ c.Res.Success = false ∧ c.Res.StatusCode = 0 ∧
      c.Res.Timing = none ∧ c.Res.Certificate = none ∧
      p.history = p0.history ++ [Event.perform req.Method] ∧
      ∀ newRequest transport,
        Perform { env with NewRequest := newRequest, Do := transport }
          (Init env req p0).1 (Init env req p0).2 = some (false, c, p) := by
  have hs : ¬ schemeSupported (Init env req p0).1 := by
    simp [schemeSupported, Init, h1, h2]
  refine ⟨(handleFailure env (Init env req p0).1 (entered (Init env req p0).1 (Init env req p0).2)
      ("Unsupported schema " ++ (Init env req p0).1.Req.URL.Scheme)
      (CheckError.ToString UnsupportedSchema)).2.1,
    (handleFailure env (Init env req p0).1 (entered (Init env req p0).1 (Init env req p0).2)
      ("Unsupported schema " ++ (Init env req p0).1.Req.URL.Scheme)
      (CheckError.ToString UnsupportedSchema)).2.2, ?_, ?_⟩
  · rw [perform_unsupported env _ _ hs]
    rfl
  · refine ⟨rfl, rfl, rfl, ?_, rfl, rfl, rfl, ?_, ?_⟩
    · simp [handleFailure, CheckResult.Success, StatusDown, StatusUp]
    · simp [handleFailure, AddCheckTime, AddDown, Proc.now, entered, Proc.record, Init]
    · intro newRequest transport
      rw [perform_unsupported _ _ _ hs]
      rfl

theorem unsupported_scheme_is_down_witness :
    ∃ c p, Perform (answering (reply 200 none))
        (Init (answering (reply 200 none))
          (probe "HEAD" { exampleURL with Scheme := "ftp" } true) idle).1
        (Init (answering (reply 200 none))
          (probe "HEAD" { exampleURL with Scheme := "ftp" } true) idle).2
        = some (false, c, p) ∧
      c.Res.Status = StatusDown ∧ c.Res.Error = "unsupported_schema" := by
  obtain ⟨c, p, h, hd, he, -⟩ := unsupported_scheme_is_down (answering (reply 200 none))
    (probe "HEAD" { exampleURL with Scheme := "ftp" } true) idle (by decide) (by decide)
  exact ⟨c, p, h, hd, he⟩

/-! ## C3: the redirect policy -/

theorem checkRedirect_off (c : Checker) (req : Request) (via : List Request)
    (h : c.Req.Options.FollowRedirects = false) :
    CheckRedirect c req via = some ErrUseLastResponse := by
  simp [CheckRedirect, h]

theorem checkRedirect_allow (c : Checker) (req : Request) (via : List Request)
    (h : c.Req.Options.FollowRedirects = true) (hn : via.length ≤ 5) :
    CheckRedirect c req via = none := by
  simp [CheckRedirect, h, maxRedirects]
  omega

theorem checkRedirect_refuse (c : Checker) (req : Request) (via : List Request)
    (h : c.Req.Options.FollowRedirects = true) (hn : 5 < via.length) :
    CheckRedirect c req via = some errMaxRedirects := by
  simp [CheckRedirect, h, maxRedirects, hn]

theorem followChain_short (c : Checker) (req : Request)
    (h : c.Req.Options.FollowRedirects = true) :
    ∀ (hops : Nat) (via : List Request), via.length + hops ≤ 6 → 1 ≤ via.length →
      followChain (CheckRedirect c) req hops via = .followed (via.length + hops) := by
  intro hops
  induction hops with
  | zero => intro via _ _; simp [followChain]
  | succ n ih =>
    intro via hlen hpos
    rw [followChain, checkRedirect_allow c req via h (by omega)]
    simp only
    rw [ih (via ++ [req]) (by simp; omega) (by simp)]
    simp
    omega

theorem followChain_long (c : Checker) (req : Request)
    (h : c.Req.Options.FollowRedirects = true) :
    ∀ (hops : Nat) (via : List Request), 6 < via.length + hops → via.length ≤ 6 →
      followChain (CheckRedirect c) req hops via
        = .refused 6 (.urlError req.Method req.URL.Host errMaxRedirects) := by
  intro hops
  induction hops with
  | zero => intro via h1 h2; omega
  | succ n ih =>
    intro via h1 h2
    by_cases h6 : via.length = 6
    · rw [followChain, checkRedirect_refuse c req via h (by omega)]
      simp [h6, errMaxRedirects, ErrUseLastResponse]
    · rw [followChain, checkRedirect_allow c req via h (by omega)]
      simp only
      exact ih (via ++ [req]) (by simp; omega) (by simp; omega)

/-- C3: the redirect policy Perform installs is CheckRedirect. Asked about a
hop when `via` holds the requests made already, it answers ErrUseLastResponse
for every `via` when followRedirects is false; when followRedirects is true it
allows the hop for every `via` of length at most 5 and refuses it with
errMaxRedirects for every longer one. Hence a chain of at most 5 redirects is
followed to its end, a longer chain is refused at its 6th hop, when 6 requests
have been made, and the refusal, wrapped in the request error, is classified as
max_redirects with no log entry. -/
theorem redirect_policy (c : Checker) (req : Request) (via : List Request) (hops : Nat) :
    (httpClient c).CheckRedirect = CheckRedirect c ∧
    (c.Req.Options.FollowRedirects = false →
      CheckRedirect c req via = some ErrUseLastResponse) ∧
    (c.Req.Options.FollowRedirects = true → via.length ≤ 5 →
      CheckRedirect c req via = none) ∧
    (c.Req.Options.FollowRedirects = true → 5 < via.length →
      CheckRedirect c req via = some errMaxRedirects) ∧
    (c.Req.Options.FollowRedirects = true → hops ≤ 5 →
      followChain (CheckRedirect c) req hops [req] = .followed (hops + 1)) ∧
    (c.Req.Options.FollowRedirects = true → 5 < hops →
      followChain (CheckRedirect c) req hops [req]
        = .refused 6 (.urlError req.Method req.URL.Host errMaxRedirects)) ∧
    (c.Req.Options.FollowRedirects = false → 0 < hops →
      followChain (CheckRedirect c) req hops [req] = .lastResponse 1) ∧
    unwrapError c (.urlError req.Method req.URL.Host errMaxRedirects)
      = (⟨MaxRedirects, none⟩, []) := by
  refine ⟨rfl, checkRedirect_off c req via, checkRedirect_allow c req via,
    checkRedirect_refuse c req via, ?_, ?_, ?_, ?_⟩
  · intro h hh
    rw [followChain_short c req h hops [req] (by simp; omega) (by simp)]
    simp
    omega
  · intro h hh
    exact followChain_long c req h hops [req] (by simp; omega) (by simp)
  · intro h hh
    obtain ⟨n, rfl⟩ : ∃ n, hops = n + 1 := ⟨hops - 1, by omega⟩
    rw [followChain, checkRedirect_off c req [req] h]
    simp
  · simp [unwrapError, unwrapURLError, errMaxRedirects]

/-! ## C4: the GET fallback -/

theorem attempts_append (xs ys : List Event) :
    attempts (xs ++ ys) = attempts xs ++ attempts ys := by
  induction xs with
  | nil => rfl
  | cons x xs ih => cases x <;> simp [attempts, ih]

theorem handleError_result (env : Env) (c : Checker) (p : Proc) (msg : String)
    (err : GoError) (b : Bool) (c' : Checker) (p' : Proc)
    (h : handleError env c p msg err = some (b, c', p')) :
    b = false ∧ c'.Success = false ∧ c'.Req = c.Req ∧ c'.Res.Method = c.Res.Method ∧
    c'.Res.StatusCode = c.Res.StatusCode ∧ c'.Res.Status = StatusDown ∧
    c'.Res.Error = (unwrapError c err).1.ToString ∧
    some c'.Res.Certificate = certInfoFromCert env.sha256 (unwrapError c err).1.Cert ∧
    p'.history = p.history ∧ p'.log = p.log ++ (unwrapError c err).2 := by
  unfold handleError at h
  simp only [Proc.now] at h
  cases hi : certInfoFromCert env.sha256 (unwrapError c err).1.Cert with
  | none => simp [hi] at h
  | some info =>
    simp only [hi, Option.some.injEq, Prod.mk.injEq] at h
    obtain ⟨rfl, rfl, rfl⟩ := h
    simp [AddCheckTime, AddDown]

theorem handleFailure_result (env : Env) (c : Checker) (p : Proc) (msg code : String) :
    (handleFailure env c p msg code).1 = false ∧
    (handleFailure env c p msg code).2.1.Success = false ∧
    (handleFailure env c p msg code).2.1.Req = c.Req ∧
    (handleFailure env c p msg code).2.1.Res.Method = c.Res.Method ∧
    (handleFailure env c p msg code).2.1.Res.StatusCode = c.Res.StatusCode ∧
    (handleFailure env c p msg code).2.1.Res.Status = StatusDown ∧
    (handleFailure env c p msg code).2.1.Res.Error = code ∧
    (handleFailure env c p msg code).2.2.history = p.history ∧
    (handleFailure env c p msg code).2.2.log = p.log := by
  simp [handleFailure, Proc.now, AddCheckTime, AddDown]

theorem perform_failure (env : Env) (c : Checker) (p : Proc) (f : Failure)
    (hf : f.occurs env c p) :
    Perform env c p =
      if fallbackApplies c then
        Perform env (fallbackState env c (f.proc env c p)).1
          (fallbackState env c (f.proc env c p)).2
      else f.handled env c p := by
  cases f with
  | construct err => exact perform_construct env c p err hf.1 hf.2
  | execute err => exact perform_execute env c p err hf.1 hf.2.1 hf.2.2
  | read resp tr err => exact perform_read env c p resp tr err hf.1 hf.2.1 hf.2.2.1 hf.2.2.2
  | status resp tr body info =>
    obtain ⟨hs, hn, hd, hb, hi, hc⟩ := hf
    rw [perform_completed env c p resp tr body hs hn hd hb, hi]
    simp only [hc, if_true, and_self, ne_eq, not_false_eq_true, Failure.proc, Failure.handled]

theorem attempts_proc (env : Env) (c : Checker) (p : Proc) (f : Failure) :
    attempts (f.proc env c p).history = attempts p.history ++ [c.Req.Method] := by
  cases f <;>
    simp [Failure.proc, entered, sent, received, Proc.record, Proc.now, attempts_append, attempts]

theorem handled_result (env : Env) (c : Checker) (p : Proc) (f : Failure)
    (b : Bool) (c' : Checker) (p' : Proc) (h : f.handled env c p = some (b, c', p')) :
    b = false ∧ c'.Success = false ∧ c'.Req = c.Req ∧ c'.Res.Method = c.Res.Method ∧
    c'.Res.StatusCode = f.statusCode c ∧ c'.Res.Status = StatusDown ∧
    c'.Res.Error = f.errorCode c ∧ attempts p'.history = attempts p.history ++ [c.Req.Method] := by
  cases f with
  | construct err =>
    obtain ⟨h1, h2, h3, h4, h5, h6, h7, -, h9, -⟩ := handleError_result env c (entered c p)
      "Unable to create request" err b c' p' h
    exact ⟨h1, h2, h3, h4, h5, h6, h7, by rw [h9]; exact attempts_proc env c p (.construct err)⟩
  | execute err =>
    obtain ⟨h1, h2, h3, h4, h5, h6, h7, -, h9, -⟩ := handleError_result env c (sent c p)
      "Error making request" err b c' p' h
    exact ⟨h1, h2, h3, h4, h5, h6, h7, by rw [h9]; exact attempts_proc env c p (.execute err)⟩
  | read resp tr err =>
    obtain ⟨h1, h2, h3, h4, h5, h6, h7, -, h9, -⟩ := handleError_result env c (sent c p)
      "Error reading response body" err b c' p' h
    exact ⟨h1, h2, h3, h4, h5, h6, h7, by rw [h9]; exact attempts_proc env c p (.read resp tr err)⟩
  | status resp tr body info =>
    simp only [Failure.handled, Option.some.injEq] at h
    obtain ⟨h1, h2, h3, h4, h5, h6, h7, h8, -⟩ := handleFailure_result env
      (populated env c p resp tr info body) (received env c p) "Unsuccessful status code"
      (toString resp.StatusCode)
    rw [h] at h1 h2 h3 h4 h5 h6 h7 h8
    refine ⟨h1, h2, h3, h4, h5, h6, h7, ?_⟩
    simp only at h8
    rw [h8]
    exact attempts_proc env c p (.status resp tr body info)

/-- A probe to which no fallback applies is a single attempt: whatever it
returns, Perform was entered once, and the request and the result's method are
as they were. -/
theorem perform_once (env : Env) (c : Checker) (p : Proc) (hf : ¬ fallbackApplies c)
    (b : Bool) (c' : Checker) (p' : Proc) (h : Perform env c p = some (b, c', p')) :
    c'.Req = c.Req ∧ c'.Res.Method = c.Res.Method ∧
    attempts p'.history = attempts p.history ++ [c.Req.Method] := by
  by_cases hs : schemeSupported c
  · have key : ∀ f : Failure, f.occurs env c p →
        c'.Req = c.Req ∧ c'.Res.Method = c.Res.Method ∧
        attempts p'.history = attempts p.history ++ [c.Req.Method] := by
      intro f hocc
      rw [perform_failure env c p f hocc, if_neg hf] at h
      obtain ⟨-, -, h3, h4, -, -, -, h8⟩ := handled_result env c p f b c' p' h
      exact ⟨h3, h4, h8⟩
    cases hn : env.NewRequest c.Req.Method c.Req.URL with
    | some err => exact key (.construct err) ⟨hs, hn⟩
    | none =>
      cases hd : env.Do p.clock (httpClient c) (httpRequest c) with
      | error err => exact key (.execute err) ⟨hs, hn, hd⟩
      | ok r =>
        obtain ⟨resp, tr⟩ := r
        cases hb : resp.Body with
        | error err => exact key (.read resp tr err) ⟨hs, hn, hd, hb⟩
        | ok body =>
          cases hi : responseCertificate env c resp with
          | none =>
            rw [perform_completed env c p resp tr body hs hn hd hb, hi] at h
            simp at h
          | some info =>
            by_cases hc : resp.StatusCode ≠ 200 ∧ resp.StatusCode ≠ 203
            · exact key (.status resp tr body info) ⟨hs, hn, hd, hb, hi, hc.1, hc.2⟩
            · rw [perform_completed env c p resp tr body hs hn hd hb, hi] at h
              simp only [hc, if_false, Option.some.injEq, Prod.mk.injEq] at h
              obtain ⟨-, rfl, rfl⟩ := h
              refine ⟨rfl, rfl, ?_⟩
              simp [AddCheckTime, AddUp, received, sent, entered, Proc.now, Proc.record,
                attempts_append, attempts]
  · rw [perform_unsupported env c p hs] at h
    simp only [Option.some.injEq] at h
    obtain ⟨-, -, h3, h4, -, -, -, h8, -⟩ := handleFailure_result env c (entered c p)
      ("Unsupported schema " ++ c.Req.URL.Scheme) (CheckError.ToString UnsupportedSchema)
    rw [h] at h3 h4 h8
    refine ⟨h3, h4, ?_⟩
    simp only at h8
    rw [h8]
    simp [entered, Proc.record, attempts_append, attempts]

theorem fallbackState_init (env : Env) (req : CheckRequest) (p0 p : Proc) :
    fallbackState env (Init env req p0).1 p = Init env (asGet req) p := by
  simp [fallbackState, Init, asGet, Proc.now]

/-- C4: for every request with method HEAD whose HEAD attempt fails at request
construction, request execution, body read or the status code check: with
getFallback enabled, Perform returns exactly what an independent GET probe of
the same URL, timeout and options returns when it is initialised at the point
of the failure; whatever is returned has result method GET, and Perform was
entered exactly once more, with method GET. With getFallback disabled Perform
returns what the failure handler makes of the HEAD attempt: false and a down
result with method HEAD, the status code the HEAD attempt recorded and its
error code. -/
theorem head_fallback (env : Env) (req : CheckRequest) (p0 : Proc) (f : Failure)
    (hm : req.Method = "HEAD")
    (hf : f.occurs env (Init env req p0).1 (Init env req p0).2) :
    (req.Options.GetFallback = true →
      Perform env (Init env req p0).1 (Init env req p0).2
        = Perform env
            (Init env (asGet req) (f.proc env (Init env req p0).1 (Init env req p0).2)).1
            (Init env (asGet req) (f.proc env (Init env req p0).1 (Init env req p0).2)).2 ∧
      ∀ b c p, Perform env (Init env req p0).1 (Init env req p0).2 = some (b, c, p) →
        c.Res.Method = "GET" ∧ c.Req = asGet req ∧
        attempts p.history = attempts p0.history ++ ["HEAD", "GET"]) ∧
    (req.Options.GetFallback = false →
      Perform env (Init env req p0).1 (Init env req p0).2
        = f.handled env (Init env req p0).1 (Init env req p0).2 ∧
      ∀ b c p, Perform env (Init env req p0).1 (Init env req p0).2 = some (b, c, p) →
        b = false ∧ c.Success = false ∧ c.Res.Status = StatusDown ∧ c.Res.Method = "HEAD" ∧
        c.Req = req ∧ c.Res.StatusCode = f.statusCode (Init env req p0).1 ∧
        c.Res.Error = f.errorCode (Init env req p0).1 ∧
        attempts p.history = attempts p0.history ++ ["HEAD"]) := by
  have hinit : (Init env req p0).2.history = p0.history := by simp [Init, Proc.now]
  have hreq : (Init env req p0).1.Req = req := rfl
  have hres : (Init env req p0).1.Res.Method = req.Method := rfl
  constructor
  · intro hg
    have hfb : fallbackApplies (Init env req p0).1 := ⟨hm, hg⟩
    have heq := perform_failure env _ _ f hf
    rw [if_pos hfb, fallbackState_init] at heq
    refine ⟨heq, ?_⟩
    intro b c p h
    rw [heq] at h
    have hno : ¬ fallbackApplies
        (Init env (asGet req) (f.proc env (Init env req p0).1 (Init env req p0).2)).1 := by
      simp [fallbackApplies, Init, asGet]
    obtain ⟨h1, h2, h3⟩ := perform_once env _ _ hno b c p h
    refine ⟨h2, h1, ?_⟩
    rw [h3]
    have : (Init env (asGet req)
        (f.proc env (Init env req p0).1 (Init env req p0).2)).2.history
        = (f.proc env (Init env req p0).1 (Init env req p0).2).history := by
      simp [Init, Proc.now]
    rw [this, attempts_proc, hinit, hreq, hm]
    simp [Init, asGet]
  · intro hg
    have hfb : ¬ fallbackApplies (Init env req p0).1 := by
      simp [fallbackApplies, Init, hg]
    have heq := perform_failure env _ _ f hf
    rw [if_neg hfb] at heq
    refine ⟨heq, ?_⟩
    intro b c p h
    rw [heq] at h
    obtain ⟨h1, h2, h3, h4, h5, h6, h7, h8⟩ := handled_result env _ _ f b c p h
    rw [hinit, hreq, hm] at h8
    rw [hres, hm] at h4
    exact ⟨h1, h2, h6, h4, h3, h5, h7, h8⟩

theorem head_fallback_witness :
    ∃ c p, Perform (answeringHead (reply 404 none) (reply 200 none))
        (Init (answeringHead (reply 404 none) (reply 200 none))
          (probe "HEAD" exampleURL true) idle).1
        (Init (answeringHead (reply 404 none) (reply 200 none))
          (probe "HEAD" exampleURL true) idle).2 = some (true, c, p) ∧
      c.Res.Method = "GET" ∧ c.Res.StatusCode = 200 ∧ attempts p.history = ["HEAD", "GET"] := by
  have hocc : (Failure.status (reply 404 none) fullTrace "" none).occurs
      (answeringHead (reply 404 none) (reply 200 none))
      (Init (answeringHead (reply 404 none) (reply 200 none))
        (probe "HEAD" exampleURL true) idle).1
      (Init (answeringHead (reply 404 none) (reply 200 none))
        (probe "HEAD" exampleURL true) idle).2 :=
    ⟨by decide, rfl, rfl, rfl, rfl, by decide, by decide⟩
  obtain ⟨heq, hall⟩ := (head_fallback (answeringHead (reply 404 none) (reply 200 none))
    (probe "HEAD" exampleURL true) idle (.status (reply 404 none) fullTrace "" none)
    rfl hocc).1 rfl
  obtain ⟨c, p, h, hcode, -, -⟩ := perform_status_rule
    (answeringHead (reply 404 none) (reply 200 none))
    (asGet (probe "HEAD" exampleURL true))
    ((Failure.status (reply 404 none) fullTrace "" none).proc
      (answeringHead (reply 404 none) (reply 200 none))
      (Init (answeringHead (reply 404 none) (reply 200 none))
        (probe "HEAD" exampleURL true) idle).1
      (Init (answeringHead (reply 404 none) (reply 200 none))
        (probe "HEAD" exampleURL true) idle).2)
    (reply 200 none) fullTrace "" none (by decide) rfl rfl rfl (by decide) rfl
  rw [← heq] at h
  have hb : decide ((reply 200 none).StatusCode = 200 ∨ (reply 200 none).StatusCode = 203)
      = true := by decide
  rw [hb] at h
  obtain ⟨h1, -, h3⟩ := hall true c p h
  exact ⟨c, p, h, h1, hcode, by simpa [idle, attempts] using h3⟩

/-! ## C5, C6: certificate failures -/

/-- C5: for a request error wrapping an unknown-authority failure that carries
certificate `cert`, the classifier returns cert-untrusted-authority when `cert`
is a CA, whatever its key identifiers; otherwise cert-self-signed when its
subject key identifier equals its authority key identifier, also when both are
absent; otherwise cert-incomplete-chain. In all three cases the certificate
returned is `cert`, and nothing is logged. -/
theorem unknown_authority_classes (c : Checker) (op url : String) (cert : Certificate) :
    unwrapError c (.urlError op url (.unknownAuthorityError cert))
      = (⟨if cert.IsCA = true then CertUntrustedAuthority
          else if cert.SubjectKeyId = cert.AuthorityKeyId then CertSelfSigned
          else CertIncompleteChain, some cert⟩, []) ∧
    (unwrapError c (.urlError op url (.unknownAuthorityError
      { cert with SubjectKeyId := none, AuthorityKeyId := none, IsCA := false }))).1.Err
      = CertSelfSigned := by
  constructor
  · simp only [unwrapError, unwrapURLError]
    split
    · rfl
    · split <;> rfl
  · simp [unwrapError, unwrapURLError]

/-- C6: for a request error wrapping a certificate-validity failure with
certificate `cert`, the classifier returns cert-expired when the reason is
Expired and tls_alert for every other reason; for a request error wrapping a
hostname failure with certificate `cert` it returns cert-wrong-host. The
certificate returned is `cert`, and handleError stores the summary of `cert`:
it returns a down result with that error code and that summary when the
summary exists, and panics exactly when the summary does. -/
theorem certificate_failure_classes (env : Env) (c : Checker) (p : Proc)
    (msg op url detail host : String) (cert : Certificate) (reason : Nat) :
    (unwrapError c (.urlError op url (.certificateInvalidError cert reason detail))).1
      = ⟨if reason = Expired then CertExpired else TLSAlert, some cert⟩ ∧
    (unwrapError c (.urlError op url (.hostnameError cert host))).1
      = ⟨CertWrongHost, some cert⟩ ∧
    (handleError env c p msg
        (.urlError op url (.certificateInvalidError cert Expired detail))).map
        (fun r => (r.1, r.2.1.Res.Status, r.2.1.Res.Error, r.2.1.Res.Certificate))
      = (certInfoFromCert env.sha256 (some cert)).map
        (fun info => (false, StatusDown, "cert-expired", info)) ∧
    (handleError env c p msg (.urlError op url (.hostnameError cert host))).map
        (fun r => (r.1, r.2.1.Res.Status, r.2.1.Res.Error, r.2.1.Res.Certificate))
      = (certInfoFromCert env.sha256 (some cert)).map
        (fun info => (false, StatusDown, "cert-wrong-host", info)) := by
  refine ⟨?_, rfl, ?_, ?_⟩
  · simp only [unwrapError, unwrapURLError]
    split <;> rfl
  · simp only [handleError, unwrapError, unwrapURLError, if_true]
    cases certInfoFromCert env.sha256 (some cert) <;> rfl
  · simp only [handleError, unwrapError, unwrapURLError]
    cases certInfoFromCert env.sha256 (some cert) <;> rfl

/-! ## C7: network operation errors -/

/-- C7: for a request error wrapping a network-operation error: a DNS failure
gives nxdomain when it is marked not-found and dns_error otherwise; an OS call
failure gives closed for connection-reset, econnrefused for connection-refused,
ehostunreach for host-unreachable, and unknown_error (logged) for every cause
whose text is none of these three. No certificate is returned in any case. -/
theorem net_op_error_classes (c : Checker) (op url nop net dnsErr name call : String)
    (isNotFound isTimeout : Bool) (cause : GoError) :
    unwrapError c
        (.urlError op url (.opError nop net (.dnsError dnsErr name isNotFound isTimeout)))
      = (⟨if isNotFound = true then NxDomain else DNSError, none⟩, []) ∧
    unwrapError c (.urlError op url (.opError nop net (.syscallError call cause)))
      = (if cause.Error = "connection reset by peer" then (⟨Closed, none⟩, [])
         else if cause.Error = "connection refused" then (⟨ConnectionRefused, none⟩, [])
         else if cause.Error = "no route to host" then (⟨HostUnreachable, none⟩, [])
         else unhandledError c (.syscallError call cause) "os.SyscallError") ∧
    (unhandledError c (.syscallError call cause) "os.SyscallError").1 = ⟨UnknownError, none⟩ ∧
    unwrapError c (.urlError op url (.opError nop net (.syscallError call ECONNRESET)))
      = (⟨Closed, none⟩, []) ∧
    unwrapError c (.urlError op url (.opError nop net (.syscallError call ECONNREFUSED)))
      = (⟨ConnectionRefused, none⟩, []) ∧
    unwrapError c (.urlError op url (.opError nop net (.syscallError call EHOSTUNREACH)))
      = (⟨HostUnreachable, none⟩, []) ∧
    (unwrapError c (.urlError op url (.opError nop net
      (.syscallError call (.value "syscall.Errno" "connection timed out"))))).1
      = ⟨UnknownError, none⟩ := by
  refine ⟨?_, rfl, rfl, rfl, rfl, rfl, rfl⟩
  simp only [unwrapError, unwrapURLError, unwrapNetOpError]
  split <;> rfl

/-! ## C8, C9, C10: timeouts, end of stream, unknown errors -/

/-- An error of the internal HTTP error type whose text is the redirect-limit
text, wrapped by the request error, is classified as max_redirects whatever its
timeout flag: the classifier compares the text before it looks at the type. No
transport makes such an error. -/
theorem wrapped_timeout_with_redirect_text :
    unwrapError sampleChecker
      (.urlError "Get" "https://example.com/" (.httpError "Redirect limited exceeded" true))
      = (⟨MaxRedirects, none⟩, []) ∧
    (unwrapError sampleChecker
      (.urlError "Get" "https://example.com/"
        (.httpError "Redirect limited exceeded" true))).1.Err ≠ Timeout := by
  decide

/-- The classifier returns timeout for an error of the internal HTTP error
type whose timeout flag is set, immediate or wrapped by the request error with
a text other than the redirect-limit text, and for no other error. -/
theorem timeout_only_for (c : Checker) (e : GoError) :
    (unwrapError c e).1.Err = Timeout ↔
      (∃ t, e = .httpError t true) ∨
      (∃ o u t, e = .urlError o u (.httpError t true) ∧ t ≠ "Redirect limited exceeded") := by
  constructor
  · intro h
    cases e with
    | httpError t b =>
      cases b with
      | true => exact Or.inl ⟨t, rfl⟩
      | false =>
        simp only [unwrapError, unwrapHTTPError] at h
        exact absurd h (by decide)
    | urlError o u inner =>
      cases inner with
      | httpError t b =>
        by_cases ht : t = "Redirect limited exceeded"
        · subst ht
          cases b <;>
          · simp [unwrapError, unwrapURLError, GoError.Error, errMaxRedirects] at h
            exact absurd h (by decide)
        · cases b with
          | true => exact Or.inr ⟨o, u, t, rfl, ht⟩
          | false =>
            simp [unwrapError, unwrapURLError, unwrapHTTPError, GoError.Error, errMaxRedirects,
              ht] at h
            exact absurd h (by decide)
      | opError op net cause =>
        cases cause <;>
        · simp only [unwrapError, unwrapURLError, unwrapNetOpError, unhandledError] at h
          split_ifs at h <;> dsimp only at h <;> exact absurd h (by decide)
      | _ =>
        simp only [unwrapError, unwrapURLError, unwrapHTTPError, unhandledError] at h
        first
          | exact absurd h (by decide)
          | (split_ifs at h <;> dsimp only at h <;> exact absurd h (by decide))
    | _ =>
      simp only [unwrapError, unhandledError] at h
      exact absurd h (by decide)
  · rintro (⟨t, rfl⟩ | ⟨o, u, t, rfl, ht⟩)
    · rfl
    · simp [unwrapError, unwrapURLError, unwrapHTTPError, GoError.Error, errMaxRedirects, ht]

/-- C8, at a TLS handshake that times out in the transport, the cause wrapped
by the request error: the failure is flagged as a timeout, and the classifier
returns unknown_error, not timeout; Perform for the probe returns false with a
result that is down with error "unknown_error". -/
theorem handshake_timeout_is_unknown :
    handshakeTimeout.Timeout = true ∧
    (unwrapError sampleChecker handshakeTimeout).1 = ⟨UnknownError, none⟩ ∧
    (unwrapError sampleChecker handshakeTimeout).1.Err ≠ Timeout ∧
    ∃ c p, Perform (failing handshakeTimeout)
        (Init (failing handshakeTimeout) (probe "GET" exampleURL false) idle).1
        (Init (failing handshakeTimeout) (probe "GET" exampleURL false) idle).2
        = some (false, c, p) ∧
      c.Res.Status = StatusDown ∧ c.Res.Error = "unknown_error" := by
  refine ⟨by decide, by decide, by decide, ?_⟩
  have hocc : (Failure.execute handshakeTimeout).occurs (failing handshakeTimeout)
      (Init (failing handshakeTimeout) (probe "GET" exampleURL false) idle).1
      (Init (failing handshakeTimeout) (probe "GET" exampleURL false) idle).2 :=
    ⟨by decide, rfl, rfl⟩
  rw [perform_failure _ _ _ _ hocc, if_neg (by decide)]
  exact ⟨_, _, rfl, rfl, rfl⟩

/-- C8, amended: for every error of the internal HTTP error type whose timeout
flag is set, the classifier returns timeout when the error is the immediate
error handed to it, whatever its text, and when the error is the cause wrapped
by the request error and its text is not the redirect-limit text; handleError
then returns false with a result that is down with error "timeout", and so
does Perform for a probe without fallback whose request execution or body read
fails so. The classifier returns timeout
for these errors and no other: a failure of another type that is flagged as a
timeout is classified by its type, a TLS handshake timeout and a connect that
timed out as unknown_error, a DNS lookup that timed out as nxdomain or
dns_error. -/
theorem timeout_classes (env : Env) (c : Checker) (p : Proc) (msg op url text : String)
    (h : text ≠ "Redirect limited exceeded") :
    (∀ any, unwrapError c (.httpError any true) = (⟨Timeout, none⟩, [])) ∧
    unwrapError c (.urlError op url (.httpError text true)) = (⟨Timeout, none⟩, []) ∧
    (∀ err, err = .httpError text true ∨ err = .urlError op url (.httpError text true) →
      ∃ c' p', handleError env c p msg err = some (false, c', p') ∧
        c'.Success = false ∧ c'.Res.Status = StatusDown ∧ c'.Res.Error = "timeout" ∧
        c'.Res.Certificate = none) ∧
    (∀ err, err = .httpError text true ∨ err = .urlError op url (.httpError text true) →
      ∀ f, f = Failure.execute err ∨ (∃ resp tr, f = Failure.read resp tr err) →
      f.occurs env c p → ¬ fallbackApplies c →
      ∃ c' p', Perform env c p = some (false, c', p') ∧
        c'.Success = false ∧ c'.Res.Status = StatusDown ∧ c'.Res.Error = "timeout") ∧
    (GoError.httpError text true).Timeout = true ∧
    (GoError.urlError op url (.httpError text true)).Timeout = true ∧
    (∀ e, (unwrapError c e).1.Err = Timeout ↔
      (∃ t, e = .httpError t true) ∨
      (∃ o u t, e = .urlError o u (.httpError t true) ∧ t ≠ "Redirect limited exceeded")) ∧
    ((GoError.urlError op url tlsHandshakeTimeout).Timeout = true ∧
      (unwrapError c (.urlError op url tlsHandshakeTimeout)).1 = ⟨UnknownError, none⟩) ∧
    (∀ nop net call,
      (GoError.urlError op url (.opError nop net (.syscallError call ETIMEDOUT))).Timeout = true ∧
      (unwrapError c (.urlError op url (.opError nop net (.syscallError call ETIMEDOUT)))).1
        = ⟨UnknownError, none⟩) ∧
    (∀ nop net dnsErr name isNotFound,
      (GoError.urlError op url
        (.opError nop net (.dnsError dnsErr name isNotFound true))).Timeout = true ∧
      (unwrapError c (.urlError op url
        (.opError nop net (.dnsError dnsErr name isNotFound true)))).1
        = ⟨if isNotFound = true then NxDomain else DNSError, none⟩) := by
  have h1 : unwrapError c (.httpError text true) = (⟨Timeout, none⟩, []) := rfl
  have h2 : unwrapError c (.urlError op url (.httpError text true)) = (⟨Timeout, none⟩, []) := by
    simp [unwrapError, unwrapURLError, unwrapHTTPError, GoError.Error, errMaxRedirects, h]
  have h3 : ∀ (q : Proc) (m : String) (err : GoError),
      err = .httpError text true ∨ err = .urlError op url (.httpError text true) →
      ∃ c' p', handleError env c q m err = some (false, c', p') ∧
        c'.Success = false ∧ c'.Res.Status = StatusDown ∧ c'.Res.Error = "timeout" ∧
        c'.Res.Certificate = none := by
    intro q m err herr
    have hu : unwrapError c err = (⟨Timeout, none⟩, []) := by
      rcases herr with rfl | rfl
      · exact h1
      · exact h2
    simp only [handleError, hu, certInfoFromCert]
    exact ⟨_, _, rfl, rfl, rfl, rfl, rfl⟩
  refine ⟨fun _ => rfl, h2, h3 p msg, ?_, rfl, rfl, timeout_only_for c, ⟨rfl, rfl⟩,
    fun _ _ _ => ⟨rfl, rfl⟩, fun _ _ _ _ isNotFound => ⟨rfl, by cases isNotFound <;> rfl⟩⟩
  intro err herr f hform hocc hno
  rw [perform_failure env c p f hocc, if_neg hno]
  rcases hform with rfl | ⟨resp, tr, rfl⟩
  · obtain ⟨c', p', e1, e2, e3, e4, -⟩ := h3 (sent c p) "Error making request" err herr
    exact ⟨c', p', e1, e2, e3, e4⟩
  · obtain ⟨c', p', e1, e2, e3, e4, -⟩ := h3 (sent c p) "Error reading response body" err herr
    exact ⟨c', p', e1, e2, e3, e4⟩

theorem timeout_classes_witness :
    ∃ c p, Perform (failing clientTimeout)
        (Init (failing clientTimeout) (probe "GET" exampleURL false) idle).1
        (Init (failing clientTimeout) (probe "GET" exampleURL false) idle).2
        = some (false, c, p) ∧
      c.Res.Status = StatusDown ∧ c.Res.Error = "timeout" := by
  obtain ⟨c, p, h, -, h2, h3⟩ := (timeout_classes (failing clientTimeout)
    (Init (failing clientTimeout) (probe "GET" exampleURL false) idle).1
    (Init (failing clientTimeout) (probe "GET" exampleURL false) idle).2
    "Error making request" "Get" "https://example.com/"
    "net/http: request canceled (Client.Timeout exceeded while awaiting headers)"
    (by decide)).2.2.2.1 clientTimeout (Or.inr rfl) (.execute clientTimeout) (Or.inl rfl)
    ⟨by decide, rfl, rfl⟩ (by decide)
  exact ⟨c, p, h, h2, h3⟩

/-- C9, at the end of stream handed to the classifier as the immediate error:
the classifier returns unknown_error, not closed. -/
theorem bare_eof_is_unknown :
    (unwrapError sampleChecker .eof).1 = ⟨UnknownError, none⟩ ∧
    (unwrapError sampleChecker .eof).1.Err ≠ Closed := by
  decide

/-- C9, amended: an end of stream that is the cause wrapped by the request
error is classified as closed, with no log entry; an end of stream that is the
immediate error handed to the classifier is classified as unknown_error and
logged with its type, as every immediate error is that is neither a request
error nor of the internal HTTP error type. -/
theorem eof_classes (c : Checker) (op url : String) :
    unwrapError c (.urlError op url .eof) = (⟨Closed, none⟩, []) ∧
    unwrapError c .eof = unhandledError c .eof "error" ∧
    unwrapError c .eof
      = (⟨UnknownError, none⟩,
         [⟨.Warn, "Unhandled error",
           [("Ref", .str c.Req.Ref), ("Err", .err .eof), ("Type", .str "*errors.errorString"),
            ("Parent", .str "error")]⟩]) :=
  ⟨rfl, rfl, rfl⟩

theorem unhandledError_logged (c : Checker) (e : GoError) (parent : String) :
    Logged c (unhandledError c e parent).2 :=
  ⟨e, parent, rfl⟩

theorem unwrapNetOpError_unknown (c : Checker) (err : GoError)
    (h : (unwrapNetOpError c err).1.Err = UnknownError) :
    Logged c (unwrapNetOpError c err).2 := by
  unfold unwrapNetOpError at h ⊢
  split at h
  · split at h <;> simp [NxDomain, DNSError, UnknownError] at h
  · split at h
    · simp [Closed, UnknownError] at h
    · split at h
      · simp [ConnectionRefused, UnknownError] at h
      · split at h
        · simp [HostUnreachable, UnknownError] at h
        · simp only [*, if_false]
          exact unhandledError_logged c _ _
  · split at h
    · simp [TLSAlert, UnknownError] at h
    · simp only [*, if_false]
      exact unhandledError_logged c _ _

theorem unwrapURLError_unknown (c : Checker) (err : GoError)
    (h : (unwrapURLError c err).1.Err = UnknownError) :
    (∃ text, err = .httpError text false) ∨ Logged c (unwrapURLError c err).2 := by
  unfold unwrapURLError at h ⊢
  split at h
  · split at h <;> simp [CertExpired, TLSAlert, UnknownError] at h
  · split at h
    · simp [CertUntrustedAuthority, UnknownError] at h
    · split at h <;> simp [CertSelfSigned, CertIncompleteChain, UnknownError] at h
  · simp [CertWrongHost, UnknownError] at h
  · exact Or.inr (unwrapNetOpError_unknown c _ h)
  · split at h
    · simp [Closed, UnknownError] at h
    · split at h
      · simp [MaxRedirects, UnknownError] at h
      · split at h
        · rename_i message timeout _ _ _ _ _ _
          cases timeout with
          | true => simp [unwrapHTTPError, Timeout, UnknownError] at h
          | false => exact Or.inl ⟨message, rfl⟩
        · split at h
          · simp [TLSAlert, UnknownError] at h
          · right
            simp only [*, if_false]
            exact unhandledError_logged c _ _

/-- Every unknown_error the classifier returns is logged with the error and its
type, except for an error of the internal HTTP error type whose timeout flag is
false, immediate or wrapped by the request error. -/
theorem unknown_error_logged_otherwise (c : Checker) (err : GoError)
    (h : (unwrapError c err).1.Err = UnknownError) :
    (∃ text, err = .httpError text false) ∨
    (∃ op url text, err = .urlError op url (.httpError text false)) ∨
    Logged c (unwrapError c err).2 := by
  unfold unwrapError at h ⊢
  split at h
  · rename_i op url inner
    rcases unwrapURLError_unknown c inner h with ⟨text, rfl⟩ | hl
    · exact Or.inr (Or.inl ⟨op, url, text, rfl⟩)
    · exact Or.inr (Or.inr hl)
  · rename_i message timeout
    cases timeout with
    | true => simp [unwrapHTTPError, Timeout, UnknownError] at h
    | false => exact Or.inl ⟨message, rfl⟩
  · exact Or.inr (Or.inr (unhandledError_logged c _ _))

/-- C10, at an error of the internal HTTP error type whose timeout flag is
false, immediate or wrapped by the request error: the classifier returns
unknown_error and emits no log entry. -/
theorem silent_unknown_error :
    unwrapError sampleChecker (.httpError "net/http: transport failure" false)
      = (⟨UnknownError, none⟩, []) ∧
    unwrapError sampleChecker
      (.urlError "Get" "https://example.com/" (.httpError "net/http: transport failure" false))
      = (⟨UnknownError, none⟩, []) := by
  decide

/-! ## the attempts of a probe -/

theorem perform_success (env : Env) (c : Checker) (p : Proc) (resp : Response) (tr : Trace)
    (body : String) (info : Option CertInfo) (h : succeeds env c p resp tr body info) :
    Perform env c p = some (success env c p resp tr body info) := by
  obtain ⟨hs, hn, hd, hb, hi, hc⟩ := h
  have hc' : ¬ (resp.StatusCode ≠ 200 ∧ resp.StatusCode ≠ 203) := by tauto
  rw [perform_completed env c p resp tr body hs hn hd hb, hi]
  simp only [hc', if_false, success]

/-- The cases of an attempt: the scheme is rejected, the attempt fails, it
panics in the certificate summary, or it succeeds. -/
theorem attempt_cases (env : Env) (c : Checker) (p : Proc) :
    ¬ schemeSupported c ∨ (∃ f : Failure, f.occurs env c p) ∨ Perform env c p = none ∨
    ∃ resp tr body info, succeeds env c p resp tr body info := by
  by_cases hs : schemeSupported c
  · right
    cases hn : env.NewRequest c.Req.Method c.Req.URL with
    | some err => exact Or.inl ⟨.construct err, hs, hn⟩
    | none =>
      cases hd : env.Do p.clock (httpClient c) (httpRequest c) with
      | error err => exact Or.inl ⟨.execute err, hs, hn, hd⟩
      | ok r =>
        obtain ⟨resp, tr⟩ := r
        cases hb : resp.Body with
        | error err => exact Or.inl ⟨.read resp tr err, hs, hn, hd, hb⟩
        | ok body =>
          cases hi : responseCertificate env c resp with
          | none =>
            refine Or.inr (Or.inl ?_)
            rw [perform_completed env c p resp tr body hs hn hd hb, hi]
          | some info =>
            by_cases hc : resp.StatusCode ≠ 200 ∧ resp.StatusCode ≠ 203
            · exact Or.inl ⟨.status resp tr body info, hs, hn, hd, hb, hi, hc.1, hc.2⟩
            · exact Or.inr (Or.inr ⟨resp, tr, body, info, hs, hn, hd, hb, hi, by tauto⟩)
  · exact Or.inl hs

/-- Whatever Perform returns is what one attempt gives, made by the checker
itself or, when the fallback applies and the first attempt fails, by the
checker performGetFallback prepares. -/
theorem perform_attempts (env : Env) (c : Checker) (p : Proc) (r : Bool × Checker × Proc)
    (h : Perform env c p = some r) :
    attemptYields env c p r ∨
    (fallbackApplies c ∧ ∃ f : Failure, f.occurs env c p ∧
      attemptYields env (fallbackState env c (f.proc env c p)).1
        (fallbackState env c (f.proc env c p)).2 r) := by
  have single : ∀ (c : Checker) (p : Proc), ¬ fallbackApplies c →
      Perform env c p = some r → attemptYields env c p r := by
    intro c p hf h
    rcases attempt_cases env c p with hs | ⟨f, hocc⟩ | hp | ⟨resp, tr, body, info, hsucc⟩
    · rw [perform_unsupported env c p hs, Option.some.injEq] at h
      exact Or.inl ⟨hs, h.symm⟩
    · rw [perform_failure env c p f hocc, if_neg hf] at h
      exact Or.inr (Or.inl ⟨f, hocc, h⟩)
    · rw [hp] at h; simp at h
    · rw [perform_success env c p resp tr body info hsucc, Option.some.injEq] at h
      exact Or.inr (Or.inr ⟨resp, tr, body, info, hsucc, h.symm⟩)
  by_cases hf : fallbackApplies c
  · rcases attempt_cases env c p with hs | ⟨f, hocc⟩ | hp | ⟨resp, tr, body, info, hsucc⟩
    · rw [perform_unsupported env c p hs, Option.some.injEq] at h
      exact Or.inl (Or.inl ⟨hs, h.symm⟩)
    · rw [perform_failure env c p f hocc, if_pos hf] at h
      have hno : ¬ fallbackApplies (fallbackState env c (f.proc env c p)).1 := by
        simp [fallbackApplies, fallbackState]
      exact Or.inr ⟨hf, f, hocc, single _ _ hno h⟩
    · rw [hp] at h; simp at h
    · rw [perform_success env c p resp tr body info hsucc, Option.some.injEq] at h
      exact Or.inl (Or.inr (Or.inr ⟨resp, tr, body, info, hsucc, h.symm⟩))
  · exact Or.inl (single c p hf h)

/-! ## C11: the client timeout -/

theorem clamp_eq_min (d : Duration) :
    (if d > maxTimeout then maxTimeout else d) = min d maxTimeout := by
  by_cases h : d > maxTimeout
  · rw [if_pos h, min_eq_right (le_of_lt h)]
  · rw [if_neg h, min_eq_left (not_lt.mp h)]

theorem handled_history (env : Env) (c : Checker) (p : Proc) (f : Failure)
    (b : Bool) (c' : Checker) (p' : Proc) (h : f.handled env c p = some (b, c', p')) :
    p'.history = (f.proc env c p).history := by
  cases f with
  | construct err =>
    exact (handleError_result env c (entered c p) "Unable to create request" err b c' p'
      h).2.2.2.2.2.2.2.2.1
  | execute err =>
    exact (handleError_result env c (sent c p) "Error making request" err b c' p'
      h).2.2.2.2.2.2.2.2.1
  | read resp tr err =>
    exact (handleError_result env c (sent c p) "Error reading response body" err b c' p'
      h).2.2.2.2.2.2.2.2.1
  | status resp tr body info =>
    simp only [Failure.handled, Option.some.injEq] at h
    have h8 := (handleFailure_result env (populated env c p resp tr info body) (received env c p)
      "Unsuccessful status code" (toString resp.StatusCode)).2.2.2.2.2.2.2.1
    rw [h] at h8
    exact h8

theorem proc_trips (env : Env) (c : Checker) (p : Proc) (f : Failure) :
    ∃ es, (f.proc env c p).history = p.history ++ es ∧
      tripsUse (min c.Req.Timeout maxTimeout) es := by
  have two : tripsUse (min c.Req.Timeout maxTimeout) [Event.perform c.Req.Method,
      Event.roundTrip (httpRequest c) (httpClient c).Timeout] := by
    intro r t h
    simp at h
    rw [h.2]
    exact clamp_eq_min _
  cases f with
  | construct err =>
    exact ⟨[Event.perform c.Req.Method], rfl, by intro r t h; simp at h⟩
  | execute err =>
    exact ⟨_, by simp [Failure.proc, sent, entered, Proc.record], two⟩
  | read resp tr err =>
    exact ⟨_, by simp [Failure.proc, sent, entered, Proc.record], two⟩
  | status resp tr body info =>
    exact ⟨_, by simp [Failure.proc, received, sent, entered, Proc.record, Proc.now], two⟩

theorem attempt_trips (env : Env) (c : Checker) (p : Proc) (r : Bool × Checker × Proc)
    (h : attemptYields env c p r) :
    ∃ es, r.2.2.history = p.history ++ es ∧ tripsUse (min c.Req.Timeout maxTimeout) es := by
  rcases h with ⟨-, rfl⟩ | ⟨f, -, hh⟩ | ⟨resp, tr, body, info, -, rfl⟩
  · exact ⟨[Event.perform c.Req.Method],
      by simp [handleFailure, AddCheckTime, AddDown, Proc.now, entered, Proc.record],
      by intro r t h; simp at h⟩
  · obtain ⟨es, h1, h2⟩ := proc_trips env c p f
    exact ⟨es, by rw [handled_history env c p f r.1 r.2.1 r.2.2 hh, h1], h2⟩
  · obtain ⟨es, h1, h2⟩ := proc_trips env c p (.status resp tr body info)
    exact ⟨es, by simpa [success, AddCheckTime, AddUp, Failure.proc] using h1, h2⟩

/-- The number Perform stores as the timeout of the client it creates is
`min d maxTimeout` for the requested timeout `d`, with maxTimeout thirty
seconds: it equals `d` when `d` is at most thirty seconds, thirty seconds when
`d` is more, and is never above thirty seconds; and whatever Perform returns,
every round trip it has entered in the history, on the first attempt or on the
GET fallback, was made with this number as the client timeout. -/
theorem client_timeout_clamped (env : Env) (req : CheckRequest) (p0 : Proc) :
    (httpClient (Init env req p0).1).Timeout = min req.Timeout (30 * Second) ∧
    (req.Timeout ≤ 30 * Second → (httpClient (Init env req p0).1).Timeout = req.Timeout) ∧
    (req.Timeout > 30 * Second → (httpClient (Init env req p0).1).Timeout = 30 * Second) ∧
    (httpClient (Init env req p0).1).Timeout ≤ 30 * Second ∧
    ∀ r, Perform env (Init env req p0).1 (Init env req p0).2 = some r →
      ∃ es, r.2.2.history = p0.history ++ es ∧ tripsUse (min req.Timeout (30 * Second)) es := by
  have hmin : (httpClient (Init env req p0).1).Timeout = min req.Timeout (30 * Second) :=
    clamp_eq_min req.Timeout
  refine ⟨hmin, ?_, ?_, ?_, ?_⟩
  · intro h; rw [hmin]; exact min_eq_left h
  · intro h; rw [hmin]; exact min_eq_right (le_of_lt h)
  · rw [hmin]; exact min_le_right _ _
  · intro r h
    have hinit : (Init env req p0).2.history = p0.history := by simp [Init, Proc.now]
    rcases perform_attempts env _ _ r h with h1 | ⟨-, f, -, h2⟩
    · obtain ⟨es, e1, e2⟩ := attempt_trips env _ _ r h1
      exact ⟨es, by rw [e1, hinit], e2⟩
    · obtain ⟨es1, a1, a2⟩ := proc_trips env (Init env req p0).1 (Init env req p0).2 f
      obtain ⟨es2, e1, e2⟩ := attempt_trips env _ _ r h2
      have hh : (fallbackState env (Init env req p0).1
          (f.proc env (Init env req p0).1 (Init env req p0).2)).2.history
          = (f.proc env (Init env req p0).1 (Init env req p0).2).history := by
        simp [fallbackState, Proc.now]
      refine ⟨es1 ++ es2, by rw [e1, hh, a1, hinit, List.append_assoc], ?_⟩
      intro q t hm
      rcases List.mem_append.mp hm with hm | hm
      · exact a2 q t hm
      · exact e2 q t hm

/-- For a requested timeout above zero the limit the client applies is
`min d maxTimeout`, at most thirty seconds; for a requested timeout of zero or
less the client applies no limit. -/
theorem client_deadline (env : Env) (req : CheckRequest) (p0 : Proc) :
    (0 < req.Timeout →
      (httpClient (Init env req p0).1).deadline = some (min req.Timeout (30 * Second)) ∧
      min req.Timeout (30 * Second) ≤ 30 * Second) ∧
    (req.Timeout ≤ 0 → (httpClient (Init env req p0).1).deadline = none) := by
  have hmin : (httpClient (Init env req p0).1).Timeout = min req.Timeout (30 * Second) :=
    clamp_eq_min req.Timeout
  have h30 : (0 : Duration) < 30 * Second := by decide
  constructor
  · intro h
    refine ⟨?_, min_le_right _ _⟩
    unfold Client.deadline
    rw [hmin, if_pos (lt_min h h30)]
  · intro h
    unfold Client.deadline
    rw [hmin, if_neg (not_lt.mpr (le_trans (min_le_left _ _) h))]

/-- C11, at a request whose timeout is zero: Perform stores zero as the timeout
of the client, which is `min 0 maxTimeout`, and the client reads it as no
limit, not as a limit of zero or of thirty seconds; the probe is made with
this client and succeeds. -/
theorem zero_timeout_is_unlimited :
    untimedProbe.Timeout = 0 ∧ min untimedProbe.Timeout (30 * Second) = 0 ∧
    (httpClient (Init (answering (reply 200 none)) untimedProbe idle).1).Timeout = 0 ∧
    (httpClient (Init (answering (reply 200 none)) untimedProbe idle).1).deadline = none ∧
    (httpClient (Init (answering (reply 200 none)) untimedProbe idle).1).deadline
      ≠ some (min untimedProbe.Timeout (30 * Second)) ∧
    ∃ c p, Perform (answering (reply 200 none))
        (Init (answering (reply 200 none)) untimedProbe idle).1
        (Init (answering (reply 200 none)) untimedProbe idle).2 = some (true, c, p) ∧
      p.history = [Event.perform "GET",
        Event.roundTrip { Method := "GET", URL := exampleURL, Header := requestHeader } 0] := by
  refine ⟨rfl, by decide, by decide, by decide, by decide, _, _,
    perform_success _ _ _ (reply 200 none) fullTrace "" none
      ⟨by decide, rfl, rfl, rfl, rfl, by decide⟩, ?_⟩
  rfl

/-! ## C12: the subject of a certificate -/

theorem intercalate_go_spaced (acc : String) (l : List String) :
    String.intercalate.go acc " " l
      = match l with
        | [] => acc
        | b :: rest => acc ++ " " ++ spaced (b :: rest) := by
  induction l generalizing acc with
  | nil => rfl
  | cons b rest ih =>
    rw [String.intercalate.go, ih]
    cases rest with
    | nil => rfl
    | cons c r => simp only [spaced, String.append_assoc]

theorem intercalate_spaced (l : List String) : " ".intercalate l = spaced l := by
  cases l with
  | nil => rfl
  | cons a rest =>
    rw [String.intercalate, intercalate_go_spaced]
    cases rest <;> rfl

/-- C12: for every certificate, extractSubject returns: with more than 5 DNS
names, the first 5 of them in order joined by single spaces, followed by
" ..."; with between 1 and 5, all of them in order joined by single spaces,
with no marker; with none, the subject Common Name. A certificate with 7 names
yields its first 5 entries and then the marker. -/
theorem extractSubject_cases (cert : Certificate) :
    (5 < cert.DNSNames.length →
      extractSubject cert = spaced (cert.DNSNames.take 5) ++ " ...") ∧
    (0 < cert.DNSNames.length → cert.DNSNames.length ≤ 5 →
      extractSubject cert = spaced cert.DNSNames) ∧
    (cert.DNSNames = [] → extractSubject cert = cert.Subject.CommonName) ∧
    (∀ a b c d e f g, cert.DNSNames = [a, b, c, d, e, f, g] →
      extractSubject cert = a ++ " " ++ (b ++ " " ++ (c ++ " " ++ (d ++ " " ++ e))) ++ " ...") := by
  refine ⟨?_, ?_, ?_, ?_⟩
  · intro h
    simp [extractSubject, h, intercalate_spaced]
  · intro h1 h2
    have h3 : ¬ 5 < cert.DNSNames.length := by omega
    simp [extractSubject, h1, h3, intercalate_spaced]
  · intro h
    simp [extractSubject, h]
  · intro a b c d e f g h
    simp [extractSubject, h, intercalate_spaced, spaced]

/-! ## C14, C15, C18: the phase durations -/

/-- The timing a completed exchange leaves in the result, when the status code
check passes and when it fails with no fallback. -/
theorem completed_timing (env : Env) (c : Checker) (p : Proc) (resp : Response) (tr : Trace)
    (body : String) (info : Option CertInfo)
    (h : succeeds env c p resp tr body info ∨
      ((Failure.status resp tr body info).occurs env c p ∧ ¬ fallbackApplies c)) :
    ∃ r, Perform env c p = some r ∧
      r.1 = decide (resp.StatusCode = 200 ∨ resp.StatusCode = 203) ∧
      r.2.1.Res.Timing = some (phaseDurations tr (bodyReadAt env p)).1 ∧
      (r.1 = true → r.2.1.Res.Time = some (phaseDurations tr (bodyReadAt env p)).2) := by
  rcases h with hs | ⟨hocc, hf⟩
  · refine ⟨_, perform_success env c p resp tr body info hs, ?_, rfl, fun _ => rfl⟩
    have := hs.2.2.2.2.2
    simp [success, this]
  · rw [perform_failure env c p _ hocc, if_neg hf]
    refine ⟨_, rfl, ?_, rfl, ?_⟩
    · have h1 := hocc.2.2.2.2.2.1
      have h2 := hocc.2.2.2.2.2.2
      simp [handleFailure, h1, h2]
    · intro hb
      simp [handleFailure] at hb

/-- With neither DNS hook fired and the connection started at an instant of the
present era, more than 2^63 nanoseconds after the zero instant, the DNS phase
is the smallest duration, truncated. -/
theorem dns_phase_without_dns_hooks (tr : Trace) (t9 : Time)
    (h0 : tr.t0 = Time.zero) (h1 : tr.t1 = Time.zero) (h2 : 2 ^ 63 < tr.t2.wall) :
    (phaseDurations tr t9).1.DNS = some (-9223372036854000000) := by
  have hs : saturate (0 - tr.t2.wall) = minDuration := by
    unfold saturate minDuration
    rw [if_pos (by omega)]
  simp only [phaseDurations, h0, h1, Time.zero, Time.IsZero, Time.Sub, beq_self_eq_true,
    if_true, hs]
  decide

/-- C14, at a successful exchange with a literal address, in which neither DNS
hook fired: the DNS phase in the result's timing is not zero but the smallest
duration truncated to milliseconds, about minus 292 years, and the total,
counted from the DNS-done instant, is the largest duration truncated. -/
theorem dns_phase_of_literal_address :
    ∃ c p, Perform (answeringWith (reply 200 none) addressTrace)
        (Init (answeringWith (reply 200 none) addressTrace)
          (probe "GET" addressURL false) idle).1
        (Init (answeringWith (reply 200 none) addressTrace)
          (probe "GET" addressURL false) idle).2 = some (true, c, p) ∧
      c.Res.Status = StatusUp ∧
      c.Res.Timing.bind (fun t => t.DNS) = some (-9223372036854000000) ∧
      c.Res.Time = some 9223372036854000000 := by
  refine ⟨_, _, perform_success _ _ _ (reply 200 none) addressTrace "" none
    ⟨by decide, rfl, rfl, rfl, rfl, by decide⟩, rfl, ?_, ?_⟩
  · decide
  · decide

/-- C15, at a successful exchange over plain http, in which neither TLS hook
fired: the TLS handshake duration in the result's timing is present, with
value zero. -/
theorem tls_phase_of_plain_http :
    ∃ c p timing, Perform (answeringWith (reply 200 none) plainTrace)
        (Init (answeringWith (reply 200 none) plainTrace)
          (probe "GET" { exampleURL with Scheme := "http" } false) idle).1
        (Init (answeringWith (reply 200 none) plainTrace)
          (probe "GET" { exampleURL with Scheme := "http" } false) idle).2
        = some (true, c, p) ∧
      c.Res.Timing = some timing ∧ timing.TLS = some 0 ∧ timing.TLS ≠ none := by
  refine ⟨_, _, _, perform_success _ _ _ (reply 200 none) plainTrace "" none
    ⟨by decide, rfl, rfl, rfl, rfl, by decide⟩, rfl, ?_, ?_⟩
  · decide
  · decide

/-- C15, amended: for every completed exchange whose result Perform returns
(the status code check passes, or it fails and no fallback applies), the TLS
handshake duration in the result's timing is present: it is zero when the
TLS-start or the TLS-done hook never fired, and TLS-done minus TLS-start
truncated to whole milliseconds when both fired. -/
theorem tls_phase_present (env : Env) (c : Checker) (p : Proc) (resp : Response)
    (tr : Trace) (body : String) (info : Option CertInfo)
    (h : succeeds env c p resp tr body info ∨
      ((Failure.status resp tr body info).occurs env c p ∧ ¬ fallbackApplies c)) :
    ∃ r timing, Perform env c p = some r ∧ r.2.1.Res.Timing = some timing ∧
      (tr.t4.IsZero = true ∨ tr.t5.IsZero = true → timing.TLS = some 0) ∧
      (tr.t4.IsZero = false → tr.t5.IsZero = false →
        timing.TLS = some ((tr.t5.Sub tr.t4).Truncate Millisecond)) := by
  obtain ⟨r, h1, -, h2, -⟩ := completed_timing env c p resp tr body info h
  refine ⟨r, _, h1, h2, ?_, ?_⟩
  · intro hz
    rcases hz with hz | hz <;> simp [phaseDurations, hz]
  · intro h4 h5
    simp [phaseDurations, h4, h5]

theorem tls_phase_present_witness :
    ∃ r timing, Perform (answering (reply 404 (some (leaf 7))))
        (Init (answering (reply 404 (some (leaf 7)))) (probe "GET" exampleURL false) idle).1
        (Init (answering (reply 404 (some (leaf 7)))) (probe "GET" exampleURL false) idle).2
        = some r ∧
      r.2.1.Res.Timing = some timing ∧ timing.TLS = some 1000000 := by
  obtain ⟨r, timing, h1, h2, -, h3⟩ := tls_phase_present (answering (reply 404 (some (leaf 7))))
    (Init (answering (reply 404 (some (leaf 7)))) (probe "GET" exampleURL false) idle).1
    (Init (answering (reply 404 (some (leaf 7)))) (probe "GET" exampleURL false) idle).2
    (reply 404 (some (leaf 7))) fullTrace ""
    (some { SerialString := "07", Serial := [7], Algorithm := 4, ValidFrom := tick 0,
            ValidTo := tick 1, Subject := "example.com", Issuer := "Example CA (Example)",
            FingerprintSHA256 := [] })
    (Or.inr ⟨⟨by decide, rfl, rfl, rfl, by
      simp [responseCertificate, reply, leaf, certInfoFromTLSConnectionState,
          certInfoFromCert, extractSerial, bigIntBytes, serialLoop, hexEncode, hexDigit,
          extractSubject, extractIssuer, extractFingerprintSHA256, answering]
      decide, by decide, by decide⟩, by decide⟩)
  exact ⟨r, timing, h1, h2, by rw [h3 (by decide) (by decide)]; decide⟩

theorem sub_readings (t u : Time) (ht : t.isReading) (hu : u.isReading)
    (h : u.nanos ≤ t.nanos) :
    t.Sub u = t.nanos - u.nanos ∧ 0 ≤ t.nanos - u.nanos := by
  obtain ⟨-, a, ha, ha0, ha1⟩ := ht
  obtain ⟨-, b, hb, hb0, hb1⟩ := hu
  simp only [Time.nanos, ha, hb, Option.getD_some] at h ⊢
  simp only [Time.Sub, ha, hb, saturate, minDuration, maxDuration]
  unfold Duration
  have c1 : ¬ (a - b < -(2 ^ 63 : Int)) := by omega
  have c2 : ¬ ((2 ^ 63 : Int) - 1 < a - b) := by omega
  rw [if_neg c1, if_neg c2]
  exact ⟨rfl, by omega⟩

theorem reading_not_zero (t : Time) (ht : t.isReading) : t.IsZero = false := by
  simpa [Time.IsZero] using ht.1

theorem truncate_millis (x : Int) (hx : 0 ≤ x) :
    Duration.Truncate x Millisecond = 1000000 * (x / 1000000) := by
  have h1 : x.tmod 1000000 = x % 1000000 := Int.tmod_eq_emod hx (by norm_num)
  simp only [Duration.Truncate, Millisecond]
  unfold Duration
  rw [if_neg (by norm_num), h1]
  omega

/-- C18: for every successful exchange in which all hooks fired and their
instants are non-decreasing in the order DNS-start, DNS-done, connect-start,
connect-done, TLS-start, TLS-done, connection-acquired, headers-written,
first-response-byte, body-fully-read: Perform returns true with all six phase
durations and the total present; each phase is the length of its interval, and
the total is body-fully-read minus DNS-done, truncated to whole milliseconds:
a non-negative whole number of milliseconds that is at most the true length
and less than a millisecond below it; and connect + TLS + send + wait +
receive is at most the total. -/
theorem phases_within_total (env : Env) (c : Checker) (p : Proc) (resp : Response)
    (tr : Trace) (body : String) (info : Option CertInfo)
    (hs : succeeds env c p resp tr body info)
    (ho : hooksOrdered tr (bodyReadAt env p)) :
    ∃ c' p' dns connecting tls sending waiting receiving total,
      Perform env c p = some (true, c', p') ∧
      c'.Res.Timing = some { DNS := some dns, Connecting := some connecting, TLS := some tls,
                             Sending := some sending, Waiting := some waiting,
                             Receiving := some receiving } ∧
      c'.Res.Time = some total ∧
      dns = 1000000 * ((tr.t1.nanos - tr.t0.nanos) / 1000000) ∧
      connecting = 1000000 * ((tr.t3.nanos - tr.t2.nanos) / 1000000) ∧
      tls = 1000000 * ((tr.t5.nanos - tr.t4.nanos) / 1000000) ∧
      sending = 1000000 * ((tr.t7.nanos - tr.t6.nanos) / 1000000) ∧
      waiting = 1000000 * ((tr.t8.nanos - tr.t7.nanos) / 1000000) ∧
      receiving = 1000000 * (((bodyReadAt env p).nanos - tr.t8.nanos) / 1000000) ∧
      total = 1000000 * (((bodyReadAt env p).nanos - tr.t1.nanos) / 1000000) ∧
      tr.t1.nanos - tr.t0.nanos < dns + Millisecond ∧
      tr.t3.nanos - tr.t2.nanos < connecting + Millisecond ∧
      tr.t5.nanos - tr.t4.nanos < tls + Millisecond ∧
      tr.t7.nanos - tr.t6.nanos < sending + Millisecond ∧
      tr.t8.nanos - tr.t7.nanos < waiting + Millisecond ∧
      (bodyReadAt env p).nanos - tr.t8.nanos < receiving + Millisecond ∧
      (bodyReadAt env p).nanos - tr.t1.nanos < total + Millisecond ∧
      wholeMillis dns ∧ wholeMillis connecting ∧ wholeMillis tls ∧ wholeMillis sending ∧
      wholeMillis waiting ∧ wholeMillis receiving ∧ wholeMillis total ∧
      dns ≤ tr.t1.nanos - tr.t0.nanos ∧ connecting ≤ tr.t3.nanos - tr.t2.nanos ∧
      tls ≤ tr.t5.nanos - tr.t4.nanos ∧ sending ≤ tr.t7.nanos - tr.t6.nanos ∧
      waiting ≤ tr.t8.nanos - tr.t7.nanos ∧
      receiving ≤ (bodyReadAt env p).nanos - tr.t8.nanos ∧
      total ≤ (bodyReadAt env p).nanos - tr.t1.nanos ∧
      connecting + tls + sending + waiting + receiving ≤ total := by
  obtain ⟨r0, r1, r2, r3, r4, r5, r6, r7, r8, r9, o01, o12, o23, o34, o45, o56, o67, o78,
    o89⟩ := ho
  obtain ⟨e10, n10⟩ := sub_readings _ _ r1 r0 o01
  obtain ⟨e32, n32⟩ := sub_readings _ _ r3 r2 o23
  obtain ⟨e54, n54⟩ := sub_readings _ _ r5 r4 o45
  obtain ⟨e76, n76⟩ := sub_readings _ _ r7 r6 o67
  obtain ⟨e87, n87⟩ := sub_readings _ _ r8 r7 o78
  obtain ⟨e98, n98⟩ := sub_readings _ _ r9 r8 o89
  obtain ⟨e91, n91⟩ := sub_readings _ _ r9 r1 (by omega)
  have z0 := reading_not_zero _ r0
  have z4 := reading_not_zero _ r4
  have z5 := reading_not_zero _ r5
  refine ⟨_, _, 1000000 * ((tr.t1.nanos - tr.t0.nanos) / 1000000),
    1000000 * ((tr.t3.nanos - tr.t2.nanos) / 1000000),
    1000000 * ((tr.t5.nanos - tr.t4.nanos) / 1000000),
    1000000 * ((tr.t7.nanos - tr.t6.nanos) / 1000000),
    1000000 * ((tr.t8.nanos - tr.t7.nanos) / 1000000),
    1000000 * (((bodyReadAt env p).nanos - tr.t8.nanos) / 1000000),
    1000000 * (((bodyReadAt env p).nanos - tr.t1.nanos) / 1000000),
    perform_success env c p resp tr body info hs, ?_, ?_, rfl, rfl, rfl, rfl, rfl, rfl, rfl,
    ?_⟩
  · simp only [success, markedUp, populated, phaseDurations, z0, z4, z5, e10, e32, e54, e76,
      e87, e98, Bool.not_false, Bool.and_self, if_true, Bool.false_eq_true, if_false,
      truncate_millis _ n10, truncate_millis _ n32, truncate_millis _ n54,
      truncate_millis _ n76, truncate_millis _ n87, truncate_millis _ n98]
  · simp only [success, markedUp, populated, phaseDurations, e91, truncate_millis _ n91]
  · unfold wholeMillis Millisecond Duration
    refine ⟨by omega, by omega, by omega, by omega, by omega, by omega, by omega, ⟨by omega, Dvd.intro _ rfl⟩, ⟨by omega, Dvd.intro _ rfl⟩, ⟨by omega, Dvd.intro _ rfl⟩,
      ⟨by omega, Dvd.intro _ rfl⟩, ⟨by omega, Dvd.intro _ rfl⟩, ⟨by omega, Dvd.intro _ rfl⟩,
      ⟨by omega, Dvd.intro _ rfl⟩, by omega, by omega, by omega, by omega, by omega, by omega,
      by omega, by omega⟩

theorem fullTrace_ordered : hooksOrdered fullTrace (tick 1) :=
  ⟨⟨by decide, _, rfl, by decide, by decide⟩, ⟨by decide, _, rfl, by decide, by decide⟩,
   ⟨by decide, _, rfl, by decide, by decide⟩, ⟨by decide, _, rfl, by decide, by decide⟩,
   ⟨by decide, _, rfl, by decide, by decide⟩, ⟨by decide, _, rfl, by decide, by decide⟩,
   ⟨by decide, _, rfl, by decide, by decide⟩, ⟨by decide, _, rfl, by decide, by decide⟩,
   ⟨by decide, _, rfl, by decide, by decide⟩, ⟨by decide, _, rfl, by decide, by decide⟩,
   by decide, by decide, by decide, by decide, by decide, by decide, by decide, by decide,
   by decide⟩

/-- The instants of unevenTrace and the second tick of the clock are ordered
readings. -/
theorem unevenTrace_ordered : hooksOrdered unevenTrace (tick 1) :=
  ⟨⟨by decide, _, rfl, by decide, by decide⟩, ⟨by decide, _, rfl, by decide, by decide⟩,
   ⟨by decide, _, rfl, by decide, by decide⟩, ⟨by decide, _, rfl, by decide, by decide⟩,
   ⟨by decide, _, rfl, by decide, by decide⟩, ⟨by decide, _, rfl, by decide, by decide⟩,
   ⟨by decide, _, rfl, by decide, by decide⟩, ⟨by decide, _, rfl, by decide, by decide⟩,
   ⟨by decide, _, rfl, by decide, by decide⟩, ⟨by decide, _, rfl, by decide, by decide⟩,
   by decide, by decide, by decide, by decide, by decide, by decide, by decide, by decide,
   by decide⟩

/-- The exchange with unevenTrace, whose body is fully read at one second: the
phases reported are 1 ms, 1 ms, 2 ms, 0, 1 ms and 990 ms, the total is 998 ms,
the 998.8 ms from DNS-done to body-fully-read truncated. -/
theorem phases_within_total_witness :
    ∃ c p, Perform (answeringWith (reply 200 none) unevenTrace)
        (Init (answeringWith (reply 200 none) unevenTrace) (probe "GET" exampleURL false) idle).1
        (Init (answeringWith (reply 200 none) unevenTrace) (probe "GET" exampleURL false) idle).2
        = some (true, c, p) ∧
      c.Res.Timing = some { DNS := some (1 * Millisecond), Connecting := some (1 * Millisecond),
                            TLS := some (2 * Millisecond), Sending := some 0,
                            Waiting := some (1 * Millisecond),
                            Receiving := some (990 * Millisecond) } ∧
      c.Res.Time = some (998 * Millisecond) := by
  obtain ⟨c, p, dns, connecting, tls, sending, waiting, receiving, total, h1, h2, h3,
    e1, e2, e3, e4, e5, e6, e7, -⟩ :=
    phases_within_total (answeringWith (reply 200 none) unevenTrace)
      (Init (answeringWith (reply 200 none) unevenTrace) (probe "GET" exampleURL false) idle).1
      (Init (answeringWith (reply 200 none) unevenTrace) (probe "GET" exampleURL false) idle).2
      (reply 200 none) unevenTrace "" none ⟨by decide, rfl, rfl, rfl, rfl, by decide⟩
      unevenTrace_ordered
  have d1 : dns = 1 * Millisecond := by rw [e1]; decide
  have d2 : connecting = 1 * Millisecond := by rw [e2]; decide
  have d3 : tls = 2 * Millisecond := by rw [e3]; decide
  have d4 : sending = 0 := by rw [e4]; decide
  have d5 : waiting = 1 * Millisecond := by rw [e5]; decide
  have d6 : receiving = 990 * Millisecond := by rw [e6]; decide
  have d7 : total = 998 * Millisecond := by rw [e7]; decide
  subst d1 d2 d3 d4 d5 d6 d7
  exact ⟨c, p, h1, h2, h3⟩

/-! ## C16: the request after Perform -/

theorem attempt_req (env : Env) (c : Checker) (p : Proc) (r : Bool × Checker × Proc)
    (h : attemptYields env c p r) : r.2.1.Req = c.Req := by
  rcases h with ⟨-, rfl⟩ | ⟨f, -, hh⟩ | ⟨resp, tr, body, info, -, rfl⟩
  · rfl
  · exact (handled_result env c p f r.1 r.2.1 r.2.2 hh).2.2.1
  · rfl

/-- C16, at a HEAD probe with getFallback whose HEAD attempt is answered 404
and whose GET attempt is answered 200: when Perform returns, the method of the
request reads GET, not HEAD as at submission. -/
theorem fallback_overwrites_method :
    ∃ c p, Perform (answeringHead (reply 404 none) (reply 200 none))
        (Init (answeringHead (reply 404 none) (reply 200 none))
          (probe "HEAD" exampleURL true) idle).1
        (Init (answeringHead (reply 404 none) (reply 200 none))
          (probe "HEAD" exampleURL true) idle).2 = some (true, c, p) ∧
      c.Req.Method = "GET" ∧ c.Req ≠ probe "HEAD" exampleURL true := by
  have hocc : (Failure.status (reply 404 none) fullTrace "" none).occurs
      (answeringHead (reply 404 none) (reply 200 none))
      (Init (answeringHead (reply 404 none) (reply 200 none))
        (probe "HEAD" exampleURL true) idle).1
      (Init (answeringHead (reply 404 none) (reply 200 none))
        (probe "HEAD" exampleURL true) idle).2 :=
    ⟨by decide, rfl, rfl, rfl, rfl, by decide, by decide⟩
  rw [perform_failure _ _ _ _ hocc, if_pos (by decide)]
  refine ⟨_, _, perform_success _ _ _ (reply 200 none) fullTrace "" none
    ⟨by decide, rfl, rfl, rfl, rfl, by decide⟩, rfl, by decide⟩

/-- C16, amended: for every request handed to Init, whatever Perform returns,
the reference id, the URL, the timeout and the three options of the request
are as at submission; the method is as at submission unless the GET fallback
was taken (the method is HEAD, getFallback is set and the HEAD attempt failed),
in which case the method of the request reads GET. -/
theorem request_frame (env : Env) (req : CheckRequest) (p0 : Proc)
    (r : Bool × Checker × Proc)
    (h : Perform env (Init env req p0).1 (Init env req p0).2 = some r) :
    r.2.1.Req.Ref = req.Ref ∧ r.2.1.Req.URL = req.URL ∧ r.2.1.Req.Timeout = req.Timeout ∧
    r.2.1.Req.Options = req.Options ∧
    ((fallbackApplies (Init env req p0).1 ∧
        ∃ f : Failure, f.occurs env (Init env req p0).1 (Init env req p0).2) →
      r.2.1.Req = asGet req ∧ r.2.1.Req.Method = "GET") ∧
    (¬ (fallbackApplies (Init env req p0).1 ∧
        ∃ f : Failure, f.occurs env (Init env req p0).1 (Init env req p0).2) →
      r.2.1.Req = req) := by
  have taken : (fallbackApplies (Init env req p0).1 ∧
        ∃ f : Failure, f.occurs env (Init env req p0).1 (Init env req p0).2) →
      r.2.1.Req = asGet req := by
    rintro ⟨hf, f, hocc⟩
    rw [perform_failure env _ _ f hocc, if_pos hf] at h
    have hno : ¬ fallbackApplies (fallbackState env (Init env req p0).1
        (f.proc env (Init env req p0).1 (Init env req p0).2)).1 := by
      simp [fallbackApplies, fallbackState]
    rcases perform_attempts env _ _ r h with h1 | ⟨h2, -⟩
    · rw [attempt_req env _ _ r h1]
      rfl
    · exact absurd h2 hno
  have other : ¬ (fallbackApplies (Init env req p0).1 ∧
        ∃ f : Failure, f.occurs env (Init env req p0).1 (Init env req p0).2) →
      r.2.1.Req = req := by
    intro hn
    rcases perform_attempts env _ _ r h with h1 | ⟨h2, f, hocc, -⟩
    · exact attempt_req env _ _ r h1
    · exact absurd ⟨h2, f, hocc⟩ hn
  by_cases hc : fallbackApplies (Init env req p0).1 ∧
      ∃ f : Failure, f.occurs env (Init env req p0).1 (Init env req p0).2
  · have e := taken hc
    refine ⟨by rw [e]; rfl, by rw [e]; rfl, by rw [e]; rfl, by rw [e]; rfl,
      fun _ => ⟨e, by rw [e]; rfl⟩, fun hn => absurd hc hn⟩
  · have e := other hc
    refine ⟨by rw [e], by rw [e], by rw [e], by rw [e], fun hy => absurd hy hc, fun _ => e⟩

theorem request_frame_witness :
    ∃ r, Perform (answering (reply 404 none))
        (Init (answering (reply 404 none)) (probe "HEAD" exampleURL false) idle).1
        (Init (answering (reply 404 none)) (probe "HEAD" exampleURL false) idle).2 = some r ∧
      r.2.1.Req = probe "HEAD" exampleURL false := by
  have h : Perform (answering (reply 404 none))
      (Init (answering (reply 404 none)) (probe "HEAD" exampleURL false) idle).1
      (Init (answering (reply 404 none)) (probe "HEAD" exampleURL false) idle).2
      = some (handleFailure (answering (reply 404 none))
          (populated (answering (reply 404 none))
            (Init (answering (reply 404 none)) (probe "HEAD" exampleURL false) idle).1
            (Init (answering (reply 404 none)) (probe "HEAD" exampleURL false) idle).2
            (reply 404 none) fullTrace none "")
          (received (answering (reply 404 none))
            (Init (answering (reply 404 none)) (probe "HEAD" exampleURL false) idle).1
            (Init (answering (reply 404 none)) (probe "HEAD" exampleURL false) idle).2)
          "Unsuccessful status code" (toString (reply 404 none).StatusCode)) := by
    rw [perform_failure (answering (reply 404 none))
      (Init (answering (reply 404 none)) (probe "HEAD" exampleURL false) idle).1
      (Init (answering (reply 404 none)) (probe "HEAD" exampleURL false) idle).2
      (.status (reply 404 none) fullTrace "" none)
      ⟨by decide, rfl, rfl, rfl, rfl, by decide, by decide⟩, if_neg (by decide)]
    rfl
  exact ⟨_, h, (request_frame _ _ _ _ h).2.2.2.2.2 (by
    intro hc
    exact absurd hc.1 (by decide))⟩

/-! ## C13: the certificate summary and the serial number -/

/-- The summary of a certificate with serial number zero panics, whatever the
rest of the certificate; the summary is absent for a nil certificate and for
no other. -/
theorem certInfoFromCert_absent (sha256 : List Nat → List Nat) (cert : Certificate) :
    (cert.SerialNumber = 0 → certInfoFromCert sha256 (some cert) = none) ∧
    certInfoFromCert sha256 none = some none ∧
    certInfoFromCert sha256 (some cert) ≠ some none := by
  refine ⟨?_, rfl, ?_⟩
  · intro h
    simp [certInfoFromCert, extractSerial_zero cert h]
  · simp only [certInfoFromCert]
    split <;> simp

/-- C13, at a certificate with serial number zero, whose raw serial has no
bytes: extractSerial panics, and with it certInfoFromCert and handleError for a
certificate failure that carries the certificate. -/
theorem summary_panics_on_zero_serial :
    bigIntBytes (leaf 0).SerialNumber = [] ∧
    extractSerial (leaf 0) = none ∧
    certInfoFromCert (fun _ => []) (some (leaf 0)) = none ∧
    handleError (answering (reply 200 none)) sampleChecker idle "Error making request"
      (.urlError "Get" "https://example.com/" (.unknownAuthorityError (leaf 0))) = none := by
  have h1 : extractSerial (leaf 0) = none := extractSerial_zero (leaf 0) rfl
  have h2 : ∀ sha, certInfoFromCert sha (some (leaf 0)) = none := by
    intro sha
    simp [certInfoFromCert, h1]
  refine ⟨by simp [bigIntBytes, leaf], h1, h2 _, ?_⟩
  simp only [handleError, unwrapError, unwrapURLError]
  have h3 : (leaf 0).IsCA = false := rfl
  have h4 : ¬ ((leaf 0).SubjectKeyId = (leaf 0).AuthorityKeyId) := by decide
  simp only [h3, h4, if_false, Bool.false_eq_true, h2]

/-- Three writes next to each other in the middle of an array. -/
theorem set_three (R T : List Char) (a b c x y z : Char) :
    (((R ++ a :: b :: c :: T).set R.length x).set (R.length + 1) y).set (R.length + 2) z =
      R ++ x :: y :: z :: T := by
  induction R with
  | nil => rfl
  | cons r R ih =>
    simp only [List.cons_append, List.length_cons, List.set_cons_succ]
    rw [ih]

/-- The cell right after a prefix. -/
theorem getD_at (L T : List Char) (x d : Char) : (L ++ x :: T).getD L.length d = x := by
  induction L with
  | nil => rfl
  | cons r L ih => simpa using ih

/-- The loop of extractSerial, from any round on: with `R` written so far, a
gap `G` of as many cells as bytes are left, and the digits of those bytes
behind it, the loop ends with `R` followed by the pairs of the bytes left,
each with its colon. The reads of a round come before its writes, and the
writes never reach the digits of a later round. -/
theorem serialLoop_spec (bs : List Nat) : ∀ (R G : List Char) (fuel i off xlen : Nat),
    G.length = bs.length → off + i = R.length + G.length → i + 2 * bs.length = xlen →
    bs.length < fuel →
    serialLoop off xlen fuel i (R ++ G ++ hexEncode bs) R.length =
      (R ++ colonPairs bs, R.length + 3 * bs.length) := by
  induction bs with
  | nil =>
    intro R G fuel i off xlen hG _ hx hf
    have hG' : G = [] := List.length_eq_zero.mp hG
    subst hG'
    match fuel, hf with
    | f + 1, _ =>
      simp only [List.length_nil, Nat.mul_zero, Nat.add_zero] at hx
      simp only [serialLoop, hx, Nat.lt_irrefl, if_false, List.append_nil, hexEncode, colonPairs,
        List.length_nil, Nat.mul_zero, Nat.add_zero]
  | cons b bs ih =>
    intro R G fuel i off xlen hG ho hx hf
    match G, hG, fuel, hf with
    | g :: G2, hG, f + 1, hf =>
      simp only [List.length_cons] at hG hx hf ho
      have hG2 : G2.length = bs.length := by omega
      obtain ⟨m1, m2, M, hM⟩ : ∃ m1 m2 M, G2 ++ [hexDigit (b / 16), hexDigit (b % 16)] =
          m1 :: m2 :: M := by
        match G2 with
        | [] => exact ⟨_, _, [], rfl⟩
        | [x] => exact ⟨_, _, _, rfl⟩
        | x :: y :: G3 => exact ⟨_, _, _, rfl⟩
      have hMl : M.length = bs.length := by
        have := congrArg List.length hM
        simp only [List.length_append, List.length_cons, List.length_nil] at this
        omega
      have harr : R ++ g :: G2 ++ hexEncode (b :: bs) = R ++ g :: m1 :: m2 :: (M ++ hexEncode bs) := by
        have : g :: G2 ++ hexEncode (b :: bs) =
            g :: ((G2 ++ [hexDigit (b / 16), hexDigit (b % 16)]) ++ hexEncode bs) := by
          simp [hexEncode]
        rw [List.append_assoc, this, hM]
        rfl
      have ha : (R ++ g :: G2 ++ hexEncode (b :: bs)).getD (off + i) '0' = hexDigit (b / 16) := by
        have e : R ++ g :: G2 ++ hexEncode (b :: bs) =
            (R ++ g :: G2) ++ hexDigit (b / 16) :: (hexDigit (b % 16) :: hexEncode bs) := rfl
        have e2 : off + i = (R ++ g :: G2).length := by
          simp only [List.length_append, List.length_cons]
          omega
        rw [e, e2, getD_at]
      have hb : (R ++ g :: G2 ++ hexEncode (b :: bs)).getD (off + i + 1) '0' =
          hexDigit (b % 16) := by
        have e : R ++ g :: G2 ++ hexEncode (b :: bs) =
            (R ++ g :: G2 ++ [hexDigit (b / 16)]) ++ hexDigit (b % 16) :: hexEncode bs := by
          simp [hexEncode]
        have e2 : off + i + 1 = (R ++ g :: G2 ++ [hexDigit (b / 16)]).length := by
          simp only [List.length_append, List.length_cons, List.length_nil]
          omega
        rw [e, e2, getD_at]
      have hlt : i < xlen := by omega
      rw [serialLoop, if_pos hlt]
      simp only [ha, hb]
      rw [harr, set_three]
      have e3 : R ++ hexDigit (b / 16) :: hexDigit (b % 16) :: ':' :: (M ++ hexEncode bs) =
          (R ++ [hexDigit (b / 16), hexDigit (b % 16), ':']) ++ M ++ hexEncode bs := by
        simp
      have e4 : R.length + 3 = (R ++ [hexDigit (b / 16), hexDigit (b % 16), ':']).length := by
        simp
      rw [e3, e4, ih _ M f (i + 2) off xlen hMl
        (by simp only [List.length_append, List.length_cons, List.length_nil]; omega)
        (by omega) (by omega)]
      simp only [colonPairs, List.append_assoc, List.cons_append, List.nil_append,
        List.length_append, List.length_cons, List.length_nil, Prod.mk.injEq, true_and]
      omega

/-- The function strings.ToUpper on a lower-case hexadecimal digit. -/
theorem upper_digit : ∀ d, d < 16 → (hexDigit d).toUpper = upperHexDigit d := by
  decide

/-- The value of the upper-case digit of `d` is `d`. -/
theorem hexValue_digit : ∀ d, d < 16 → hexValue (upperHexDigit d) = d := by
  decide

/-- The content of `buf` without its last colon, in upper case, is the serial
string of the specification. -/
theorem take_colonPairs : ∀ (bs : List Nat), bs ≠ [] → (∀ b ∈ bs, b < 256) →
    ((colonPairs bs).take (3 * bs.length - 1)).map Char.toUpper = serialChars bs
  | [], h, _ => absurd rfl h
  | [b], _, hb => by
    have h1 := upper_digit (b / 16) (by have := hb b (by simp); omega)
    have h2 := upper_digit (b % 16) (by omega)
    simp [colonPairs, serialChars, h1, h2]
  | b :: b2 :: bs, _, hb => by
    have h1 := upper_digit (b / 16) (by have := hb b (by simp); omega)
    have h2 := upper_digit (b % 16) (by omega)
    have ih := take_colonPairs (b2 :: bs) (by simp) (fun x hx => hb x (by simp [hx]))
    have e : 3 * (b :: b2 :: bs).length - 1 = (3 * (b2 :: bs).length - 1) + 3 := by
      simp only [List.length_cons]
      omega
    have hc : Char.toUpper ':' = ':' := by decide
    rw [e]
    simp only [colonPairs, List.take_succ_cons, List.map_cons, h1, h2, hc, serialChars]
    simp only [colonPairs] at ih
    rw [ih]

/-- The serial string of n bytes has 3n-1 characters. -/
theorem serialChars_length : ∀ (bs : List Nat),
    (serialChars bs).length = 3 * bs.length - 1
  | [] => rfl
  | [_] => rfl
  | b :: b2 :: bs => by
    have ih := serialChars_length (b2 :: bs)
    simp only [serialChars, List.length_cons] at ih ⊢
    omega

/-- Decoding the serial string of a list of bytes gives the bytes back. -/
theorem decode_serialChars : ∀ (bs : List Nat), (∀ b ∈ bs, b < 256) →
    decodeSerial (serialChars bs) = bs
  | [], _ => rfl
  | [b], hb => by
    have h1 := hexValue_digit (b / 16) (by have := hb b (by simp); omega)
    have h2 := hexValue_digit (b % 16) (by omega)
    simp only [serialChars, decodeSerial, h1, h2]
    congr 1
    omega
  | b :: b2 :: bs, hb => by
    have h1 := hexValue_digit (b / 16) (by have := hb b (by simp); omega)
    have h2 := hexValue_digit (b % 16) (by omega)
    have ih := decode_serialChars (b2 :: bs) (fun x hx => hb x (by simp [hx]))
    simp only [serialChars, decodeSerial, h1, h2] at ih ⊢
    rw [ih]
    congr 1
    omega

/-- The method big.Int.Bytes gives bytes. -/
theorem bigIntBytes_byte (n : Int) : ∀ b ∈ bigIntBytes n, b < 256 := by
  intro b hb
  unfold bigIntBytes at hb
  exact Nat.digits_lt_base (by omega) (List.mem_reverse.mp hb)

/-- The method big.Int.Bytes gives no bytes only for zero. -/
theorem bigIntBytes_ne_nil (n : Int) (h : n ≠ 0) : bigIntBytes n ≠ [] := by
  unfold bigIntBytes
  intro e
  rw [List.reverse_eq_nil_iff, Nat.digits_eq_nil_iff_eq_zero] at e
  exact h (Int.natAbs_eq_zero.mp e)

/-- For a certificate whose serial number is not zero extractSerial returns,
and the serial string is the two upper-case hexadecimal digits of each byte of
the raw serial, in order, joined by colons: 3n-1 characters for n bytes, from
which decoding the pairs gives the raw serial back. -/
theorem extractSerial_rendering (cert : Certificate) (h : cert.SerialNumber ≠ 0) :
    extractSerial cert = some (String.mk (serialChars (bigIntBytes cert.SerialNumber))) ∧
    (serialChars (bigIntBytes cert.SerialNumber)).length =
      3 * (bigIntBytes cert.SerialNumber).length - 1 ∧
    decodeSerial (serialChars (bigIntBytes cert.SerialNumber)) =
      bigIntBytes cert.SerialNumber := by
  have hne := bigIntBytes_ne_nil cert.SerialNumber h
  have hb := bigIntBytes_byte cert.SerialNumber
  refine ⟨?_, serialChars_length _, decode_serialChars _ hb⟩
  have hl : 0 < (bigIntBytes cert.SerialNumber).length := List.length_pos.mpr hne
  have e := serialLoop_spec (bigIntBytes cert.SerialNumber) []
    (List.replicate (bigIntBytes cert.SerialNumber).length '0')
    ((bigIntBytes cert.SerialNumber).length + 1) 0 (bigIntBytes cert.SerialNumber).length
    (2 * (bigIntBytes cert.SerialNumber).length) (by simp) (by simp) (by omega) (by omega)
  simp only [List.nil_append, List.length_nil, Nat.zero_add] at e
  unfold extractSerial
  simp only [e]
  rw [if_neg (by omega), take_colonPairs _ hne hb]

/-- The summary of a certificate whose serial number is not zero is returned,
with the serial string beside the raw serial it renders. -/
theorem certInfoFromCert_present (sha256 : List Nat → List Nat) (cert : Certificate)
    (h : cert.SerialNumber ≠ 0) :
    ∃ info, certInfoFromCert sha256 (some cert) = some (some info) ∧
      info.Serial = bigIntBytes cert.SerialNumber ∧
      info.SerialString = String.mk (serialChars info.Serial) ∧
      info.SerialString.length = 3 * info.Serial.length - 1 ∧
      decodeSerial info.SerialString.data = info.Serial := by
  obtain ⟨e1, e2, e3⟩ := extractSerial_rendering cert h
  refine ⟨
    { Subject := extractSubject cert
      Issuer := extractIssuer cert
      SerialString := String.mk (serialChars (bigIntBytes cert.SerialNumber))
      Serial := bigIntBytes cert.SerialNumber
      ValidFrom := cert.NotBefore
      ValidTo := cert.NotAfter
      Algorithm := cert.SignatureAlgorithm
      FingerprintSHA256 := extractFingerprintSHA256 sha256 cert }, ?_, rfl, rfl, e2, e3⟩
  simp only [certInfoFromCert, e1]

/-! ## the decoding of UTF-8 behind truncate -/

/-- Inversion of the table `first`: the lead bytes it accepts, with the size of
the sequence and the range of the second byte. -/
theorem first_cases (c sz lo hi : Nat) (h : first c = some (sz, lo, hi)) :
    0xC2 ≤ c ∧ c ≤ 0xF4 ∧ 0x80 ≤ lo ∧ hi ≤ 0xBF ∧
    ((sz = 2 ∧ c ≤ 0xDF ∧ lo = 0x80 ∧ hi = 0xBF) ∨
     (sz = 3 ∧ c = 0xE0 ∧ lo = 0xA0 ∧ hi = 0xBF) ∨
     (sz = 3 ∧ 0xE1 ≤ c ∧ c ≤ 0xEC ∧ lo = 0x80 ∧ hi = 0xBF) ∨
     (sz = 3 ∧ c = 0xED ∧ lo = 0x80 ∧ hi = 0x9F) ∨
     (sz = 3 ∧ 0xEE ≤ c ∧ c ≤ 0xEF ∧ lo = 0x80 ∧ hi = 0xBF) ∨
     (sz = 4 ∧ c = 0xF0 ∧ lo = 0x90 ∧ hi = 0xBF) ∨
     (sz = 4 ∧ 0xF1 ≤ c ∧ c ≤ 0xF3 ∧ lo = 0x80 ∧ hi = 0xBF) ∨
     (sz = 4 ∧ c = 0xF4 ∧ lo = 0x80 ∧ hi = 0x8F)) := by
  unfold first at h
  split_ifs at h with h1 h2 h3 h4 h5 h6 h7 h8
  all_goals simp only [Option.some.injEq, Prod.mk.injEq, reduceCtorEq] at h
  all_goals obtain ⟨rfl, rfl, rfl⟩ := h
  all_goals refine ⟨by omega, by omega, by omega, by omega, ?_⟩
  · exact Or.inl ⟨rfl, h1.2, rfl, rfl⟩
  · exact Or.inr (Or.inl ⟨rfl, h2, rfl, rfl⟩)
  · exact Or.inr (Or.inr (Or.inl ⟨rfl, h3.1, h3.2, rfl, rfl⟩))
  · exact Or.inr (Or.inr (Or.inr (Or.inl ⟨rfl, h4, rfl, rfl⟩)))
  · exact Or.inr (Or.inr (Or.inr (Or.inr (Or.inl ⟨rfl, h5.1, h5.2, rfl, rfl⟩))))
  · exact Or.inr (Or.inr (Or.inr (Or.inr (Or.inr (Or.inl ⟨rfl, h6, rfl, rfl⟩)))))
  · exact Or.inr (Or.inr (Or.inr (Or.inr (Or.inr (Or.inr (Or.inl ⟨rfl, h7.1, h7.2, rfl, rfl⟩))))))
  · exact Or.inr (Or.inr (Or.inr (Or.inr (Or.inr (Or.inr (Or.inr ⟨rfl, h8, rfl, rfl⟩))))))

/-- The lead bytes of two-byte sequences. -/
theorem first_two (c : Nat) (h1 : 0xC2 ≤ c) (h2 : c ≤ 0xDF) : first c = some (2, 0x80, 0xBF) := by
  unfold first
  rw [if_pos ⟨h1, h2⟩]

/-- The lead byte 0xE0. -/
theorem first_E0 : first 0xE0 = some (3, 0xA0, 0xBF) := by decide

/-- The lead bytes 0xE1 to 0xEC. -/
theorem first_E1 (c : Nat) (h1 : 0xE1 ≤ c) (h2 : c ≤ 0xEC) : first c = some (3, 0x80, 0xBF) := by
  unfold first
  rw [if_neg (by omega), if_neg (by omega), if_pos ⟨h1, h2⟩]

/-- The lead byte 0xED. -/
theorem first_ED : first 0xED = some (3, 0x80, 0x9F) := by decide

/-- The lead bytes 0xEE and 0xEF. -/
theorem first_EE (c : Nat) (h1 : 0xEE ≤ c) (h2 : c ≤ 0xEF) : first c = some (3, 0x80, 0xBF) := by
  unfold first
  rw [if_neg (by omega), if_neg (by omega), if_neg (by omega), if_neg (by omega),
    if_pos ⟨h1, h2⟩]

/-- The lead byte 0xF0. -/
theorem first_F0 : first 0xF0 = some (4, 0x90, 0xBF) := by decide

/-- The lead bytes 0xF1 to 0xF3. -/
theorem first_F1 (c : Nat) (h1 : 0xF1 ≤ c) (h2 : c ≤ 0xF3) : first c = some (4, 0x80, 0xBF) := by
  unfold first
  rw [if_neg (by omega), if_neg (by omega), if_neg (by omega), if_neg (by omega),
    if_neg (by omega), if_neg (by omega), if_pos ⟨h1, h2⟩]

/-- The lead byte 0xF4. -/
theorem first_F4 : first 0xF4 = some (4, 0x80, 0x8F) := by decide

/-- A well-formed character is an ASCII byte, or a lead byte with a second byte
in the range the table gives for it and continuation bytes after it. -/
theorem validRune_shape (r : Bytes) :
    validRune r ↔
      (∃ c, r = [c] ∧ c < 0x80) ∨
      (∃ c b1 t, r = c :: b1 :: t ∧ leadPair (t.length + 2) c b1 ∧ ∀ b ∈ t, isCont b) := by
  constructor
  · intro h
    match r, h with
    | [], h => exact absurd h (by simp [validRune])
    | [b0], h => exact Or.inl ⟨b0, rfl, h⟩
    | [b0, b1], h =>
      obtain ⟨h1, h2, h3, h4⟩ := h
      exact Or.inr ⟨b0, b1, [], rfl, ⟨_, _, first_two b0 h1 h2, h3, h4⟩, by simp⟩
    | [b0, b1, b2], h =>
      obtain ⟨h1, h2⟩ := h
      refine Or.inr ⟨b0, b1, [b2], rfl, ?_, by simpa using h2⟩
      rcases h1 with ⟨rfl, h3, h4⟩ | ⟨h3, h4, h5, h6⟩ | ⟨rfl, h3, h4⟩ | ⟨h3, h4, h5, h6⟩
      · exact ⟨_, _, first_E0, h3, h4⟩
      · exact ⟨_, _, first_E1 b0 h3 h4, h5, h6⟩
      · exact ⟨_, _, first_ED, h3, h4⟩
      · exact ⟨_, _, first_EE b0 h3 h4, h5, h6⟩
    | [b0, b1, b2, b3], h =>
      obtain ⟨h1, h2, h2'⟩ := h
      refine Or.inr ⟨b0, b1, [b2, b3], rfl, ?_, by
        intro b hb
        simp at hb
        rcases hb with rfl | rfl
        · exact h2
        · exact h2'⟩
      rcases h1 with ⟨rfl, h3, h4⟩ | ⟨h3, h4, h5, h6⟩ | ⟨rfl, h3, h4⟩
      · exact ⟨_, _, first_F0, h3, h4⟩
      · exact ⟨_, _, first_F1 b0 h3 h4, h5, h6⟩
      · exact ⟨_, _, first_F4, h3, h4⟩
    | _ :: _ :: _ :: _ :: _ :: _, h => exact absurd h (by simp [validRune])
  · rintro (⟨c, rfl, h⟩ | ⟨c, b1, t, rfl, ⟨lo, hi, hf, h1, h2⟩, ht⟩)
    · exact h
    · obtain ⟨c1, c2, l1, l2, hc⟩ := first_cases c _ lo hi hf
      match t, hc, ht with
      | [], hc, _ =>
        simp only [List.length_nil, zero_add] at hc
        rcases hc with ⟨-, h3, rfl, rfl⟩ | ⟨h3, -⟩ | ⟨h3, -⟩ | ⟨h3, -⟩ | ⟨h3, -⟩ | ⟨h3, -⟩ |
          ⟨h3, -⟩ | ⟨h3, -⟩
        · exact ⟨c1, h3, h1, h2⟩
        all_goals omega
      | [b2], hc, ht =>
        have hb2 : isCont b2 := ht b2 (by simp)
        simp only [List.length_singleton] at hc
        rcases hc with ⟨h3, -⟩ | ⟨-, rfl, rfl, rfl⟩ | ⟨-, h3, h4, rfl, rfl⟩ | ⟨-, rfl, rfl, rfl⟩ |
          ⟨-, h3, h4, rfl, rfl⟩ | ⟨h3, -⟩ | ⟨h3, -⟩ | ⟨h3, -⟩
        · omega
        · exact ⟨Or.inl ⟨rfl, h1, h2⟩, hb2⟩
        · exact ⟨Or.inr (Or.inl ⟨h3, h4, h1, h2⟩), hb2⟩
        · exact ⟨Or.inr (Or.inr (Or.inl ⟨rfl, h1, h2⟩)), hb2⟩
        · exact ⟨Or.inr (Or.inr (Or.inr ⟨h3, h4, h1, h2⟩)), hb2⟩
        all_goals omega
      | [b2, b3], hc, ht =>
        have hb2 : isCont b2 := ht b2 (by simp)
        have hb3 : isCont b3 := ht b3 (by simp)
        simp only [List.length_cons, List.length_nil, zero_add] at hc
        rcases hc with ⟨h3, -⟩ | ⟨h3, -⟩ | ⟨h3, -⟩ | ⟨h3, -⟩ | ⟨h3, -⟩ | ⟨-, rfl, rfl, rfl⟩ |
          ⟨-, h3, h4, rfl, rfl⟩ | ⟨-, rfl, rfl, rfl⟩
        · omega
        · omega
        · omega
        · omega
        · omega
        · exact ⟨Or.inl ⟨rfl, h1, h2⟩, hb2, hb3⟩
        · exact ⟨Or.inr (Or.inl ⟨h3, h4, h1, h2⟩), hb2, hb3⟩
        · exact ⟨Or.inr (Or.inr ⟨rfl, h1, h2⟩), hb2, hb3⟩
      | _ :: _ :: _ :: _, hc, _ =>
        simp only [List.length_cons] at hc
        omega

/-- A lead byte starts a sequence of two, three or four bytes, is at least 0xC2,
and its second byte is a continuation byte. -/
theorem leadPair_size (sz c b1 : Nat) (h : leadPair sz c b1) :
    (sz = 2 ∨ sz = 3 ∨ sz = 4) ∧ 0xC2 ≤ c ∧ isCont b1 := by
  obtain ⟨lo, hi, hf, h1, h2⟩ := h
  obtain ⟨c1, -, l1, l2, hc⟩ := first_cases c sz lo hi hf
  refine ⟨?_, c1, ?_, ?_⟩
  · omega
  · omega
  · omega

/-- DecodeRuneInString reads a well-formed character of several bytes at the
head of a string with its full width. -/
theorem decode_valid (c b1 : Nat) (t rest : Bytes) (h : leadPair (t.length + 2) c b1)
    (ht : ∀ b ∈ t, isCont b) :
    DecodeRuneInString (c :: b1 :: (t ++ rest)) = t.length + 2 := by
  have hs := (leadPair_size _ c b1 h).1
  obtain ⟨lo, hi, hf, h1, h2⟩ := h
  match t, hs, hf, ht with
  | [], _, hf, _ =>
    simp only [List.length_nil, zero_add] at hf
    simp [DecodeRuneInString, hf]
    split_ifs <;> omega
  | [b2], _, hf, ht =>
    have hb2 : isCont b2 := ht b2 (by simp)
    simp only [List.length_singleton, Nat.reduceAdd] at hf
    unfold isCont at hb2
    simp [DecodeRuneInString, hf]
    split_ifs <;> omega
  | [b2, b3], _, hf, ht =>
    have hb2 : isCont b2 := ht b2 (by simp)
    have hb3 : isCont b3 := ht b3 (by simp)
    simp only [List.length_cons, List.length_nil, zero_add, Nat.reduceAdd] at hf
    unfold isCont at hb2 hb3
    simp [DecodeRuneInString, hf]
    split_ifs <;> omega
  | _ :: _ :: _ :: _, hs, _, _ =>
    simp only [List.length_cons] at hs
    omega
/-- A well-formed character has at least one byte. -/
theorem validRune_length (r : Bytes) (h : validRune r) : 1 ≤ r.length := by
  rcases (validRune_shape r).1 h with ⟨c, rfl, -⟩ | ⟨c, b1, t, rfl, -, -⟩
  · simp
  · simp

/-- The loop of ToValidUTF8 copies a well-formed character at the head of the
string and goes on with the rest. -/
theorem loop_valid_step (rep : Bytes) (fuel : Nat) (inv : Bool) (r rest : Bytes)
    (h : validRune r) :
    toValidLoop rep (fuel + 1) inv (r ++ rest) = r ++ toValidLoop rep fuel false rest := by
  rcases (validRune_shape r).1 h with ⟨c, rfl, hc⟩ | ⟨c, b1, t, rfl, hp, ht⟩
  · simp only [List.singleton_append, toValidLoop, if_pos hc]
  · have hd := decode_valid c b1 t rest hp ht
    have hc := (leadPair_size _ c b1 hp).2.1
    have e : c :: b1 :: t ++ rest = c :: b1 :: (t ++ rest) := rfl
    rw [e]
    conv_lhs => unfold toValidLoop
    simp only []
    rw [if_neg (by omega), hd, if_neg (by omega)]
    have e1 : List.take (t.length + 2) (c :: b1 :: (t ++ rest)) = c :: b1 :: t := by
      simp
    have e2 : List.drop (t.length + 2) (c :: b1 :: (t ++ rest)) = rest := by
      simp
    rw [e1, e2]

/-- DecodeRuneInString gives width 1 at a continuation byte. -/
theorem decode_continuation (c : Nat) (rest : Bytes) (h1 : 0x80 ≤ c) (h2 : c ≤ 0xBF) :
    DecodeRuneInString (c :: rest) = 1 := by
  have hf : first c = none := by
    unfold first
    rw [if_neg (by omega), if_neg (by omega), if_neg (by omega), if_neg (by omega),
      if_neg (by omega), if_neg (by omega), if_neg (by omega), if_neg (by omega)]
  simp only [DecodeRuneInString, hf]

/-- The loop of ToValidUTF8 with the empty replacement drops a run of
continuation bytes. -/
theorem loop_conts (fuel : Nat) : ∀ (inv : Bool) (s : Bytes), (∀ b ∈ s, isCont b) →
    toValidLoop [] fuel inv s = [] := by
  induction fuel with
  | zero => intro inv s _; rfl
  | succ f ih =>
    intro inv s hs
    match s, hs with
    | [], _ => rfl
    | c :: rest, hs =>
      have hc : isCont c := hs c (by simp)
      unfold isCont at hc
      unfold toValidLoop
      simp only []
      rw [if_neg (by omega), if_pos (decode_continuation c rest hc.1 hc.2),
        ih true rest (fun b hb => hs b (by simp [hb]))]
      cases inv <;> rfl

/-- DecodeRuneInString gives width 1 at a lead byte whose sequence is cut short
by the end of the string. -/
theorem decode_short (c : Nat) (rest : Bytes) (sz lo hi : Nat) (hf : first c = some (sz, lo, hi))
    (h : rest.length + 1 < sz) : DecodeRuneInString (c :: rest) = 1 := by
  simp only [DecodeRuneInString, hf, List.length_cons, if_pos h]

/-- The loop of ToValidUTF8 with the empty replacement drops a proper prefix of
a well-formed character. -/
theorem loop_partial (fuel : Nat) (inv : Bool) (r : Bytes) (n : Nat) (h : validRune r)
    (hn : n < r.length) : toValidLoop [] fuel inv (r.take n) = [] := by
  rcases (validRune_shape r).1 h with ⟨c, rfl, hc⟩ | ⟨c, b1, t, rfl, hp, ht⟩
  · simp only [List.length_singleton, Nat.lt_one_iff] at hn
    subst hn
    cases fuel <;> rfl
  · have hb1 := (leadPair_size _ c b1 hp).2.2
    have hc := (leadPair_size _ c b1 hp).2.1
    obtain ⟨lo, hi, hf, -, -⟩ := hp
    match n, hn, fuel with
    | 0, _, fuel => cases fuel <;> rfl
    | m + 1, _, 0 => rfl
    | m + 1, hn, f + 1 =>
      simp only [List.length_cons] at hn
      have hall : ∀ b ∈ (b1 :: t).take m, isCont b := by
        intro b hb
        have hb' := List.mem_of_mem_take hb
        simp only [List.mem_cons] at hb'
        rcases hb' with rfl | hb'
        · exact hb1
        · exact ht b hb'
      have hlen : ((b1 :: t).take m).length + 1 < t.length + 2 := by
        simp only [List.length_take, List.length_cons]
        omega
      simp only [List.take_succ_cons]
      unfold toValidLoop
      simp only []
      rw [if_neg (by omega), if_pos (decode_short c _ _ lo hi hf hlen),
        loop_conts f true _ hall]
      cases inv <;> rfl

/-- The characters that fit are among the characters of the string. -/
theorem fit_le (rs : List Bytes) : ∀ n, fit rs n ≤ rs.length := by
  induction rs with
  | nil => intro n; simp [fit]
  | cons r rs ih =>
    intro n
    unfold fit
    split_ifs
    · simp only [List.length_cons]
      exact Nat.succ_le_succ (ih _)
    · omega

/-- The characters that fit take at most `n` bytes. -/
theorem fit_fits (rs : List Bytes) : ∀ n, ((rs.take (fit rs n)).flatten).length ≤ n := by
  induction rs with
  | nil => intro n; simp [fit]
  | cons r rs ih =>
    intro n
    unfold fit
    split_ifs with h
    · simp only [List.take_succ_cons, List.flatten_cons, List.length_append]
      have := ih (n - r.length)
      omega
    · simp

/-- One character more than those that fit takes more than `n` bytes. -/
theorem fit_maximal (rs : List Bytes) : ∀ n, fit rs n < rs.length →
    n < ((rs.take (fit rs n + 1)).flatten).length := by
  induction rs with
  | nil => intro n h; simp [fit] at h
  | cons r rs ih =>
    intro n hk
    unfold fit at hk ⊢
    split_ifs at hk ⊢ with h
    · simp only [List.length_cons, Nat.add_lt_add_iff_right] at hk
      simp only [List.take_succ_cons, List.flatten_cons, List.length_append]
      have := ih (n - r.length) hk
      omega
    · simp only [zero_add, List.take_succ_cons, List.take_zero, List.flatten_cons, List.flatten_nil,
        List.append_nil]
      omega

/-- The loop of ToValidUTF8 with the empty replacement, on the first `n` bytes
of a sequence of well-formed characters, gives the characters that fit into
`n` bytes. -/
theorem loop_runes (rs : List Bytes) (hrs : ∀ r ∈ rs, validRune r) :
    ∀ (n fuel : Nat) (inv : Bool), (rs.flatten.take n).length ≤ fuel →
      toValidLoop [] fuel inv (rs.flatten.take n) = (rs.take (fit rs n)).flatten := by
  induction rs with
  | nil =>
    intro n fuel inv _
    simp only [List.flatten_nil, List.take_nil, fit]
    cases fuel <;> rfl
  | cons r rs ih =>
    intro n fuel inv hfuel
    have hr := hrs r (by simp)
    have hlen := validRune_length r hr
    unfold fit
    split_ifs with h
    · have e : (r :: rs).flatten.take n = r ++ rs.flatten.take (n - r.length) := by
        simp only [List.flatten_cons, List.take_append_eq_append_take, List.take_of_length_le h]
      rw [e] at hfuel ⊢
      simp only [List.length_append] at hfuel
      match fuel, hfuel with
      | 0, hfuel => omega
      | f + 1, hfuel =>
        rw [loop_valid_step [] f inv r _ hr,
          ih (fun x hx => hrs x (by simp [hx])) (n - r.length) f false (by omega)]
        simp only [List.take_succ_cons, List.flatten_cons]
    · have e : (r :: rs).flatten.take n = r.take n := by
        simp only [List.flatten_cons, List.take_append_eq_append_take]
        have : n - r.length = 0 := by omega
        rw [this]
        simp
      rw [e, loop_partial fuel inv r n hr (by omega)]
      simp

/-- The loop of ToValidUTF8 with the empty replacement never lengthens the
string. -/
theorem loop_length (fuel : Nat) : ∀ (inv : Bool) (s : Bytes),
    (toValidLoop [] fuel inv s).length ≤ s.length := by
  induction fuel with
  | zero => intro inv s; simp [toValidLoop]
  | succ f ih =>
    intro inv s
    match s with
    | [] => simp [toValidLoop]
    | c :: rest =>
      unfold toValidLoop
      simp only []
      by_cases h1 : c < 0x80
      · rw [if_pos h1]
        simp only [List.length_cons]
        exact Nat.succ_le_succ (ih false rest)
      · rw [if_neg h1]
        by_cases h2 : DecodeRuneInString (c :: rest) = 1
        · rw [if_pos h2]
          have := ih true rest
          have e : (if inv = true then ([] : Bytes) else []) = [] := by cases inv <;> rfl
          rw [e]
          simp only [List.nil_append, List.length_cons]
          omega
        · rw [if_neg h2]
          have := ih false ((c :: rest).drop (DecodeRuneInString (c :: rest)))
          have e := List.take_append_drop (DecodeRuneInString (c :: rest)) (c :: rest)
          have e2 := congrArg List.length e
          rw [List.length_append] at e2 ⊢
          omega
/-- Where DecodeRuneInString gives a width other than 1, the bytes of that
width are a well-formed character. -/
theorem decode_wide (c : Nat) (rest : Bytes) (h : DecodeRuneInString (c :: rest) ≠ 1) :
    validRune ((c :: rest).take (DecodeRuneInString (c :: rest))) := by
  cases hf : first c with
  | none => exact absurd (by simp only [DecodeRuneInString, hf]) h
  | some p =>
    obtain ⟨sz, lo, hi⟩ := p
    obtain ⟨-, -, l1, l2, hc⟩ := first_cases c sz lo hi hf
    have hsz : sz = 2 ∨ sz = 3 ∨ sz = 4 := by omega
    clear hc
    match rest, h with
    | [], h => exact absurd (by simp [DecodeRuneInString, hf]; omega) h
    | b1 :: r2, h =>
      by_cases c1 : b1 < lo ∨ hi < b1
      · exact absurd (by simp [DecodeRuneInString, hf, c1]) h
      have hp : leadPair sz c b1 := ⟨lo, hi, hf, by omega, by omega⟩
      rcases hsz with rfl | rfl | rfl
      · have e : DecodeRuneInString (c :: b1 :: r2) = 2 := by
          simp [DecodeRuneInString, hf, c1]
        rw [e]
        exact (validRune_shape _).2 (Or.inr ⟨c, b1, [], rfl, hp, by simp⟩)
      · match r2, h with
        | [], h => exact absurd (by simp [DecodeRuneInString, hf]) h
        | b2 :: r3, h =>
          by_cases c2 : b2 < 0x80 ∨ 0xBF < b2
          · exact absurd (by simp [DecodeRuneInString, hf, c1, c2]) h
          have e : DecodeRuneInString (c :: b1 :: b2 :: r3) = 3 := by
            simp [DecodeRuneInString, hf, c1, c2]
          rw [e]
          refine (validRune_shape _).2 (Or.inr ⟨c, b1, [b2], rfl, hp, ?_⟩)
          intro b hb
          simp only [List.mem_singleton] at hb
          subst hb
          unfold isCont
          omega
      · match r2, h with
        | [], h => exact absurd (by simp [DecodeRuneInString, hf]) h
        | [b2], h => exact absurd (by simp [DecodeRuneInString, hf]) h
        | b2 :: b3 :: r4, h =>
          by_cases c2 : b2 < 0x80 ∨ 0xBF < b2
          · exact absurd (by simp [DecodeRuneInString, hf, c1, c2]) h
          by_cases c3 : b3 < 0x80 ∨ 0xBF < b3
          · exact absurd (by simp [DecodeRuneInString, hf, c1, c2, c3]) h
          have e : DecodeRuneInString (c :: b1 :: b2 :: b3 :: r4) = 4 := by
            simp [DecodeRuneInString, hf, c1, c2, c3]
          rw [e]
          refine (validRune_shape _).2 (Or.inr ⟨c, b1, [b2, b3], rfl, hp, ?_⟩)
          intro b hb
          simp only [List.mem_cons, List.mem_singleton, List.not_mem_nil, or_false] at hb
          unfold isCont
          rcases hb with rfl | rfl <;> omega

/-- The loop of ToValidUTF8 with the empty replacement gives a sequence of
well-formed characters. -/
theorem loop_output (fuel : Nat) : ∀ (inv : Bool) (s : Bytes),
    ∃ rs : List Bytes, (∀ r ∈ rs, validRune r) ∧ toValidLoop [] fuel inv s = rs.flatten := by
  induction fuel with
  | zero => intro inv s; exact ⟨[], by simp, rfl⟩
  | succ f ih =>
    intro inv s
    match s with
    | [] => exact ⟨[], by simp, rfl⟩
    | c :: rest =>
      unfold toValidLoop
      simp only []
      by_cases h1 : c < 0x80
      · obtain ⟨rs, hrs, e⟩ := ih false rest
        refine ⟨[c] :: rs, ?_, ?_⟩
        · intro r hr
          simp only [List.mem_cons] at hr
          rcases hr with rfl | hr
          · exact h1
          · exact hrs r hr
        · rw [if_pos h1, e]
          rfl
      · rw [if_neg h1]
        by_cases h2 : DecodeRuneInString (c :: rest) = 1
        · obtain ⟨rs, hrs, e⟩ := ih true rest
          refine ⟨rs, hrs, ?_⟩
          rw [if_pos h2, e]
          cases inv <;> rfl
        · obtain ⟨rs, hrs, e⟩ :=
            ih false ((c :: rest).drop (DecodeRuneInString (c :: rest)))
          refine ⟨(c :: rest).take (DecodeRuneInString (c :: rest)) :: rs, ?_, ?_⟩
          · intro r hr
            simp only [List.mem_cons] at hr
            rcases hr with rfl | hr
            · exact decode_wide c rest h2
            · exact hrs r hr
          · rw [if_neg h2, e]
            rfl

/-- The loop of ToValidUTF8 leaves a sequence of well-formed characters as it
is, given fuel for its length. -/
theorem loop_fixed (rs : List Bytes) (hrs : ∀ r ∈ rs, validRune r) :
    ∀ (fuel : Nat) (inv : Bool), rs.flatten.length ≤ fuel →
      toValidLoop [] fuel inv rs.flatten = rs.flatten := by
  induction rs with
  | nil => intro fuel inv _; cases fuel <;> rfl
  | cons r rs ih =>
    intro fuel inv hfuel
    have hr := hrs r (by simp)
    have hlen := validRune_length r hr
    simp only [List.flatten_cons, List.length_append] at hfuel ⊢
    match fuel, hfuel with
    | 0, hfuel => omega
    | f + 1, hfuel =>
      rw [loop_valid_step [] f inv r _ hr,
        ih (fun x hx => hrs x (by simp [hx])) f false (by omega)]

/-- ToValidUTF8 with the empty replacement never lengthens the string. -/
theorem toValid_length (s : Bytes) : (ToValidUTF8 s []).length ≤ s.length :=
  loop_length s.length false s

/-- ToValidUTF8 with the empty replacement changes nothing when applied a
second time. -/
theorem toValid_idempotent (s : Bytes) : ToValidUTF8 (ToValidUTF8 s []) [] = ToValidUTF8 s [] := by
  obtain ⟨rs, hrs, e⟩ := loop_output s.length false s
  unfold ToValidUTF8
  rw [e]
  exact loop_fixed rs hrs _ false (le_refl _)

/-- With a limit that is not negative truncate returns: the string when it is
shorter than the limit, else the valid part of its first bytes. -/
theorem truncate_some (s : Bytes) (length : Int) (h : 0 ≤ length) :
    truncate s length =
      some (if (s.length : Int) < length then s else ToValidUTF8 (s.take length.toNat) []) := by
  unfold truncate
  by_cases c : (s.length : Int) < length
  · rw [if_pos c, if_pos c]
  · rw [if_neg c, if_neg c, if_neg (by omega)]

/-- The result of truncate has at most as many bytes as the limit. -/
theorem truncate_length (s t : Bytes) (length : Int) (h : 0 ≤ length)
    (e : truncate s length = some t) : (t.length : Int) ≤ length := by
  rw [truncate_some s length h] at e
  injection e with e
  subst e
  by_cases c : (s.length : Int) < length
  · rw [if_pos c]
    omega
  · rw [if_neg c]
    have h1 := toValid_length (s.take length.toNat)
    rw [List.length_take] at h1
    omega

/-- Truncating the result of truncate at the same limit gives it back. -/
theorem truncate_idempotent (s t : Bytes) (length : Int) (h : 0 ≤ length)
    (e : truncate s length = some t) : truncate t length = some t := by
  have hl := truncate_length s t length h e
  rw [truncate_some s length h] at e
  injection e with e
  rw [truncate_some t length h]
  by_cases c : (t.length : Int) < length
  · rw [if_pos c]
  · rw [if_neg c]
    have ht : t.take length.toNat = t := List.take_of_length_le (by omega)
    rw [ht]
    by_cases c2 : (s.length : Int) < length
    · rw [if_pos c2] at e
      subst e
      exact absurd c2 c
    · rw [if_neg c2] at e
      rw [← e, toValid_idempotent]

/-- On a sequence of well-formed characters truncate gives the characters that
fit into the limit. -/
theorem truncate_runes (rs : List Bytes) (hrs : ∀ r ∈ rs, validRune r) (length : Int)
    (h : 0 ≤ length) :
    truncate rs.flatten length = some (rs.take (fit rs length.toNat)).flatten := by
  rw [truncate_some _ length h]
  by_cases c : (rs.flatten.length : Int) < length
  · rw [if_pos c]
    have e := loop_runes rs hrs length.toNat rs.flatten.length false
      (by rw [List.length_take]; omega)
    have e2 : rs.flatten.take length.toNat = rs.flatten := List.take_of_length_le (by omega)
    rw [e2, loop_fixed rs hrs _ false (le_refl _)] at e
    rw [← e]
  · rw [if_neg c]
    unfold ToValidUTF8
    rw [loop_runes rs hrs length.toNat _ false (le_refl _)]

/-- The round of encodeHeaders for one header. -/
theorem encodeHeaders_cons (k : Bytes) (vs : List Bytes) (rest : List (Bytes × List Bytes)) :
    encodeHeaders ((k, vs) :: rest) =
      match truncate k MaxHeaderKeyLength, truncate (Join vs [0x3B, 0x20]) MaxHeaderValueLength,
        encodeHeaders rest with
      | some key, some value, some res => some (⟨key, value⟩ :: res)
      | _, _, _ => none := rfl

/-- The function encodeHeaders returns, header by header, the truncated key
and the truncation of the joined values. -/
theorem encodeHeaders_pairs (headers : List (Bytes × List Bytes)) :
    ∃ res, encodeHeaders headers = some res ∧
      List.Forall₂ (fun (kv : Bytes × List Bytes) (e : Header) =>
        truncate kv.1 MaxHeaderKeyLength = some e.Key ∧
        truncate (Join kv.2 [0x3B, 0x20]) MaxHeaderValueLength = some e.Value) headers res := by
  induction headers with
  | nil => exact ⟨[], rfl, List.Forall₂.nil⟩
  | cons kv rest ih =>
    obtain ⟨k, vs⟩ := kv
    obtain ⟨res, e, hres⟩ := ih
    obtain ⟨key, e1⟩ : ∃ key, truncate k MaxHeaderKeyLength = some key :=
      ⟨_, truncate_some k MaxHeaderKeyLength (by unfold MaxHeaderKeyLength; omega)⟩
    obtain ⟨value, e2⟩ : ∃ value, truncate (Join vs [0x3B, 0x20]) MaxHeaderValueLength = some value :=
      ⟨_, truncate_some _ MaxHeaderValueLength (by unfold MaxHeaderValueLength; omega)⟩
    refine ⟨⟨key, value⟩ :: res, ?_, List.Forall₂.cons ⟨e1, e2⟩ hres⟩
    rw [encodeHeaders_cons, e1, e2, e]

/-! ## C17: truncate and the encoded headers and body -/

/-- C17: for every string and every limit that is not negative, truncate
returns a string of at most that many bytes; the string itself when it has
fewer bytes than the limit; for a string that is a sequence of well-formed
characters, the longest run of its whole leading characters that fits the
limit, so that only a character the cut falls into is dropped; truncating the
result again changes nothing. encodeHeaders gives, header by header, the key
truncated to at most 50 bytes and the values joined with "; " truncated to at
most 250 bytes, and the encoded body has at most 250 bytes. -/
theorem truncate_contract (s : Bytes) (length : Int) (h : 0 ≤ length) :
    ∃ t, truncate s length = some t ∧ (t.length : Int) ≤ length ∧
      ((s.length : Int) < length → t = s) ∧
      (∀ rs : List Bytes, (∀ r ∈ rs, validRune r) → s = rs.flatten →
        ∃ k, k ≤ rs.length ∧ t = (rs.take k).flatten ∧
          (k < rs.length → length < ((rs.take (k + 1)).flatten.length : Int))) ∧
      truncate t length = some t ∧
      (∀ headers : List (Bytes × List Bytes), ∃ res, encodeHeaders headers = some res ∧
        List.Forall₂ (fun (kv : Bytes × List Bytes) (e : Header) =>
          truncate kv.1 50 = some e.Key ∧ e.Key.length ≤ 50 ∧
          truncate (Join kv.2 [0x3B, 0x20]) 250 = some e.Value ∧ e.Value.length ≤ 250)
          headers res) ∧
      (∀ body : Bytes, ∃ b, encodeBody body = some b ∧ b.length ≤ 250) := by
  have e := truncate_some s length h
  refine ⟨_, e, truncate_length s _ length h e, ?_, ?_, truncate_idempotent s _ length h e,
    ?_, ?_⟩
  · intro c
    rw [if_pos c]
  · intro rs hrs hs
    subst hs
    rw [truncate_runes rs hrs length h] at e
    injection e with e
    refine ⟨fit rs length.toNat, fit_le rs _, e.symm, ?_⟩
    intro hk
    have := fit_maximal rs length.toNat hk
    omega
  · intro headers
    obtain ⟨res, e1, e2⟩ := encodeHeaders_pairs headers
    refine ⟨res, e1, e2.imp ?_⟩
    intro kv e h2
    have k1 := truncate_length kv.1 e.Key MaxHeaderKeyLength
      (by unfold MaxHeaderKeyLength; omega) h2.1
    have k2 := truncate_length _ e.Value MaxHeaderValueLength
      (by unfold MaxHeaderValueLength; omega) h2.2
    unfold MaxHeaderKeyLength at k1
    unfold MaxHeaderValueLength at k2
    exact ⟨h2.1, by omega, h2.2, by omega⟩
  · intro body
    obtain ⟨b, e3⟩ : ∃ b, truncate body MaxBodyLength = some b :=
      ⟨_, truncate_some body MaxBodyLength (by unfold MaxBodyLength; omega)⟩
    have k3 := truncate_length body b MaxBodyLength (by unfold MaxBodyLength; omega) e3
    unfold MaxBodyLength at k3
    exact ⟨b, e3, by omega⟩

/-- The word café cut at four bytes: the cut falls inside the two-byte
character, which is dropped, and the result is the three letters before it. -/
theorem truncate_contract_witness :
    (0 : Int) ≤ 4 ∧ truncate cafe 4 = some [0x63, 0x61, 0x66] ∧
    ∃ t, truncate cafe 4 = some t ∧ (t.length : Int) ≤ 4 ∧ truncate t 4 = some t :=
  ⟨by decide, by decide,
    (truncate_contract cafe 4 (by decide)).imp
      (fun _ ht => ⟨ht.1, ht.2.1, ht.2.2.2.2.1⟩)⟩

end WatchSumo
